import Mathlib

/-!
Shallow embedding of the csv2gexf pipeline (src/lib/index.js): the schema
validator (checkSchema), the value coercer (parseValues with parseColumn,
assertColumn, parseBoolean), the graph assembler (deriveModel, addNodes,
addEdges, createGexf), the saver (saveGexf) and the orchestrator (convert).
Loading bytes from disk and the csv library are external collaborators; the
embedding starts from the record list that csv.parse delivers (an ordered list
of header-keyed records) and models everything the library then does with it.
-/

namespace Csv2Gexf

/-- Runtime values occurring in record cells. The csv parser yields strings; the
value coercer replaces cells with numbers or booleans. JS numbers are kept
symbolic: `parsedInt v` stands for the JS number parseInt(v) and `parsedFloat v`
for parseFloat(v), because no verified property inspects a numeric result, only
which cells were replaced by which operation. -/
inductive JsVal where
  | str (s : String)
  | boolV (b : Bool)
  | parsedInt (arg : JsVal)
  | parsedFloat (arg : JsVal)
  | undef
  deriving DecidableEq

/-- A record: a JS object mapping column headers to cell values, modelled as an
insertion-ordered association list (JS objects preserve string-key insertion
order, and Object.keys lists keys in that order). -/
abbrev Record := List (String × JsVal)

/-- Reading record[k]: the first binding wins; a missing property is undefined. -/
def getField : Record → String → JsVal
  | [], _ => .undef
  | (k2, v) :: rest, k => if k2 = k then v else getField rest k

/-- Writing record[k] = v: an existing key keeps its position, a new key is
appended at the end (JS object property semantics). -/
def setField : Record → String → JsVal → Record
  | [], k, v => [(k, v)]
  | (k2, v2) :: rest, k, v =>
    if k2 = k then (k2, v) :: rest else (k2, v2) :: setField rest k v

/-- The headers of a record set: Object.keys(records[0]). Callers must check for
emptiness themselves; the source does not, and reads of records[0] on an empty
list surface as a TypeError (modelled at each call site). -/
def headersOf (records : List Record) : List String :=
  (records.headD []).map Prod.fst

/-- Exceptions thrown by the pipeline: new Error(msg), plus the TypeError and
ReferenceError cases that some code paths raise at runtime. -/
inductive JsError where
  | jsError (msg : String)
  | typeError (msg : String)
  | referenceError (name : String)
  deriving DecidableEq

deriving instance DecidableEq for Except

/-- A schema element (see the config documentation in index.js): either a bare
marker string, or a structured attribute/viz declaration whose fields may be
absent (absent = undefined). Other runtime shapes (numbers, null, ...) are
rejected by checkSchema before any claim-relevant code runs and are not
modelled. -/
inductive SchemaEl where
  | marker (tag : String)
  | struct (target : Option String) (id : Option String) (title : Option String)
      (vtype : Option String)
  deriving DecidableEq

/-- Marker vocabulary for node schemas (index.js:871). -/
def nodeStringSpecs : List String := ["id", "label"]

/-- Marker vocabulary for edge schemas (index.js:872). -/
def edgeStringSpecs : List String := ["id", "label", "source", "target", "type", "weight"]

/-- Attribute type vocabulary (index.js:873). -/
def attributeTypes : List String := ["string", "integer", "float", "boolean"]

/-- Viz ids allowed in node schemas (index.js:874). -/
def nodeVizIds : List String := ["color", "size", "shape"]

/-- Viz ids allowed in edge schemas (index.js:875). -/
def edgeVizIds : List String := ["color", "thickness", "shape"]

/-- Edge type vocabulary (index.js:930). -/
def edgeTypes : List String := ["directed", "undirected", "mutual"]

/-- Node shape vocabulary (index.js:931). -/
def nodeShapes : List String := ["disc", "square", "triangle", "diamond"]

/-- Edge shape vocabulary (index.js:932). -/
def edgeShapes : List String := ["solid", "dotted", "dashed", "double"]

/-- JS strict equality between a schema element and a string: only a bare marker
string can be strictly equal to a string; an object never is. -/
def schemaElEqStr : SchemaEl → String → Bool
  | .marker t, s => t == s
  | .struct _ _ _ _, _ => false

/-- Helper loop for schemaIndexOf. -/
def schemaIndexOfGo (s : String) : List SchemaEl → Nat → Int
  | [], _ => -1
  | el :: rest, i => if schemaElEqStr el s then (i : Int) else schemaIndexOfGo s rest (i + 1)

/-- schema.indexOf(s): Array.prototype.indexOf, which compares with strict
equality and returns -1 when nothing matches. -/
def schemaIndexOf (schema : List SchemaEl) (s : String) : Int :=
  schemaIndexOfGo s schema 0

/-- The ctxt string interpolated into schema error messages (index.js:844). -/
def ctxtStr (isNodeSchema : Bool) : String :=
  "in the " ++ (if isNodeSchema then "node" else "edge") ++ " schema"

/-- The column/schema length mismatch message (index.js:849-850). -/
def lengthMismatchMsg (nh ns : Nat) (c : String) : String :=
  "There are " ++ Nat.repr nh ++ " columns and " ++ Nat.repr ns ++
    " schema elements " ++ c ++ ". These numbers should be equal."

/-- The proposition that sub occurs as a substring of m; used to state that an
error message names the offending counts. -/
def strContains (m sub : String) : Prop := ∃ a b, m = a ++ sub ++ b

/-- JS string interpolation of a possibly-undefined value. -/
def optStr : Option String → String
  | some s => s
  | none => "undefined"

/-- Membership test arr.indexOf(x) >= 0 where x may be undefined: indexOf over a
string array never finds undefined. -/
def optMem (o : Option String) (l : List String) : Bool :=
  match o with
  | some s => l.contains s
  | none => false

/-- Per-column loop of checkSchema (index.js:868-912). The schema is threaded
through because attribute elements get their missing id and title filled in
place. hs is the list of headers still to process, coli the index of the first
of them. A missing schema[coli] (undefined) is neither a string nor an object
and hits the error at index.js:886. -/
def checkColumnsGo (isNodeSchema : Bool) :
    List String → Nat → List SchemaEl → Except JsError (List SchemaEl)
  | [], _, schema => .ok schema
  | header :: rest, coli, schema =>
    let c := ctxtStr isNodeSchema
    match schema[coli]? with
    | none =>
        .error (.jsError ("A schema element must be either a string or an object, got \x27undefined\x27 of type undefined " ++ c))
    | some (.marker tag) =>
        if isNodeSchema ∧ tag ∉ nodeStringSpecs then
          .error (.jsError ("Unexpected node schema element \x27" ++ tag ++ "\x27 " ++ c ++ "."))
        else if ¬isNodeSchema ∧ tag ∉ edgeStringSpecs then
          .error (.jsError ("Unexpected edge schema element \x27" ++ tag ++ "\x27 " ++ c ++ "."))
        else checkColumnsGo isNodeSchema rest (coli + 1) schema
    | some (.struct target id title vtype) =>
        if target = some "attributes" then
          let id2 := id.getD header
          let title2 := title.getD id2
          let schema2 := schema.set coli (.struct target (some id2) (some title2) vtype)
          if ¬ optMem vtype attributeTypes then
            .error (.jsError ("Unexpected type \x27" ++ optStr vtype ++ "\x27 in the \x27attributes\x27 schema element with id \x27" ++ id2 ++ "\x27 " ++ c ++ "."))
          else checkColumnsGo isNodeSchema rest (coli + 1) schema2
        else if target = some "viz" then
          if isNodeSchema then
            if ¬ optMem id nodeVizIds then
              .error (.jsError ("Unexpected id \x27" ++ optStr id ++ "\x27 for a \x27viz\x27 element " ++ c ++ "."))
            else checkColumnsGo isNodeSchema rest (coli + 1) schema
          else
            match id with
            | none => .error (.jsError ("The id is missing for a \x27viz\x27 element " ++ c ++ "."))
            | some idv =>
              if idv ∉ edgeVizIds then
                .error (.jsError ("Unexpected id \x27" ++ idv ++ "\x27 for a \x27viz\x27 element " ++ c ++ "."))
              else checkColumnsGo isNodeSchema rest (coli + 1) schema
        else
          .error (.jsError ("Unexpected target \x27" ++ optStr target ++ "\x27 " ++ c))

/-- checkSchema (index.js:843-913): checks a schema against the header shape of
a record set; fills missing attribute ids and titles in place (modelled by
returning the updated schema). Object.keys(records[0]) on an empty record set
throws a TypeError. -/
def checkSchema (records : List Record) (schema : List SchemaEl) (isNodeSchema : Bool) :
    Except JsError (List SchemaEl) :=
  let c := ctxtStr isNodeSchema
  match records with
  | [] => .error (.typeError "Cannot convert undefined or null to object")
  | r0 :: _ =>
    let headers := r0.map Prod.fst
    if headers.length ≠ schema.length then
      .error (.jsError (lengthMismatchMsg headers.length schema.length c))
    else if isNodeSchema ∧ schemaIndexOf schema "id" < 0 then
      .error (.jsError ("There is no \x27id\x27 " ++ c ++ "."))
    else if ¬isNodeSchema ∧ schemaIndexOf schema "source" < 0 then
      .error (.jsError ("There is no \x27source\x27 " ++ c ++ "."))
    else if ¬isNodeSchema ∧ schemaIndexOf schema "target" < 0 then
      .error (.jsError ("There is no \x27target\x27 " ++ c ++ "."))
    else
      checkColumnsGo isNodeSchema headers 0 schema

/-- JS String.prototype.toUpperCase, modelled as per-character upcasing of the
underlying character list (Char.toUpper maps a-z to A-Z and leaves every other
character alone, which agrees with toUpperCase on the ASCII cell values this
pipeline compares against "TRUE"). -/
def jsToUpperCase (s : String) : String := ⟨s.data.map Char.toUpper⟩

/-- parseBoolean (index.js:975-977): val.toUpperCase() == "TRUE" || val == "1".
Calling toUpperCase on a non-string value throws a TypeError. -/
def parseBoolean : JsVal → Except JsError JsVal
  | .str s => .ok (.boolV (jsToUpperCase s == "TRUE" || s == "1"))
  | _ => .error (.typeError "val.toUpperCase is not a function")

/-- parseInt applied to a cell; never throws, result kept symbolic. -/
def parseIntJs (v : JsVal) : Except JsError JsVal := .ok (.parsedInt v)

/-- parseFloat applied to a cell; never throws, result kept symbolic. -/
def parseFloatJs (v : JsVal) : Except JsError JsVal := .ok (.parsedFloat v)

/-- parseColumn (index.js:979-984): replaces every cell of one column, walking
the records in order from index 0 and stopping at the first thrown exception. -/
def parseColumn (records : List Record) (header : String)
    (parseFn : JsVal → Except JsError JsVal) : Except JsError (List Record) :=
  match records with
  | [] => .ok []
  | r :: rest =>
    match parseFn (getField r header) with
    | .error e => .error e
    | .ok v =>
      match parseColumn rest header parseFn with
      | .error e => .error e
      | .ok rest2 => .ok (setField r header v :: rest2)

/-- assertColumn (index.js:986-990). The source passes the whole record object
records[reci] to assertFn, not the cell records[reci][header]; the header
argument of the JS function is unused inside its loop. -/
def assertColumn (records : List Record) (assertFn : Record → Except JsError Unit) :
    Except JsError Unit :=
  match records with
  | [] => .ok ()
  | r :: rest =>
    match assertFn r with
    | .error e => .error e
    | .ok _ => assertColumn rest assertFn

/-- Helper loop for jsIndexOf. -/
def jsIndexOfGo (probeEq : String → Bool) : List String → Nat → Int
  | [], _ => -1
  | s :: rest, i => if probeEq s then (i : Int) else jsIndexOfGo probeEq rest (i + 1)

/-- Array.prototype.indexOf over a string array; the probe is abstracted by its
JS strict-equality test against strings. -/
def jsIndexOf (arr : List String) (probeEq : String → Bool) : Int :=
  jsIndexOfGo probeEq arr 0

/-- JS strict equality of an object (here: a whole record) against a string is
always false: an object is only strictly equal to itself. -/
def recordEqStr (_r : Record) : String → Bool := fun _ => false

/-- The assertFn closure built for an edge type column (index.js:937-941).
assertColumn binds value to the whole record (index.js:988); indexOf compares
it by strict equality against the strings of edgeTypes, which never matches an
object, so the throwing branch is always reached; building the message then
evaluates the identifier ctxt, which is declared nowhere in parseValues, so the
exception actually thrown is a ReferenceError for ctxt. -/
def edgeTypeAssertFn (value : Record) : Except JsError Unit :=
  if jsIndexOf edgeTypes (recordEqStr value) < 0 then
    .error (.referenceError "ctxt")
  else .ok ()

/-- Per-column loop of parseValues (index.js:927-971). Both structured branches
of the source are guarded by assignments, not comparisons: the condition
spec.target = "attributes" (index.js:944) overwrites the target field of the
element and evaluates to the truthy string "attributes", so for every
structured element that branch runs, and the viz branch (index.js:949-970),
including both shape vocabulary assertions, is unreachable. A missing
schema[coli] makes the assignment throw a TypeError. -/
def parseValuesGo (isNodeSchema : Bool) :
    List String → Nat → List Record → List SchemaEl →
    Except JsError (List Record × List SchemaEl)
  | [], _, records, schema => .ok (records, schema)
  | header :: rest, coli, records, schema =>
    match schema[coli]? with
    | none => .error (.typeError "Cannot create property on undefined")
    | some (.marker tag) =>
        if tag = "weight" then
          match parseColumn records header parseFloatJs with
          | .error e => .error e
          | .ok records2 => parseValuesGo isNodeSchema rest (coli + 1) records2 schema
        else if tag = "type" then
          match assertColumn records edgeTypeAssertFn with
          | .error e => .error e
          | .ok _ => parseValuesGo isNodeSchema rest (coli + 1) records schema
        else parseValuesGo isNodeSchema rest (coli + 1) records schema
    | some (.struct _target id title vtype) =>
        let schema2 := schema.set coli (.struct (some "attributes") id title vtype)
        if vtype = some "integer" then
          match parseColumn records header parseIntJs with
          | .error e => .error e
          | .ok records2 => parseValuesGo isNodeSchema rest (coli + 1) records2 schema2
        else if vtype = some "float" then
          match parseColumn records header parseFloatJs with
          | .error e => .error e
          | .ok records2 => parseValuesGo isNodeSchema rest (coli + 1) records2 schema2
        else if vtype = some "boolean" then
          match parseColumn records header parseBoolean with
          | .error e => .error e
          | .ok records2 => parseValuesGo isNodeSchema rest (coli + 1) records2 schema2
        else parseValuesGo isNodeSchema rest (coli + 1) records schema2

/-- parseValues (index.js:923-973): coerces the typed columns of a record set in
place, threading the (mutated) records and schema. -/
def parseValues (records : List Record) (schema : List SchemaEl) (isNodeSchema : Bool) :
    Except JsError (List Record × List SchemaEl) :=
  match records with
  | [] => .error (.typeError "Cannot convert undefined or null to object")
  | r0 :: _ => parseValuesGo isNodeSchema (r0.map Prod.fst) 0 records schema

/-- The node object assembled by addNodes: starts as an object literal with id
and label set to undefined; attributes and viz objects are created lazily. -/
structure NodeEntry where
  id : JsVal := .undef
  label : JsVal := .undef
  attributes : Option Record := none
  viz : Option Record := none
  deriving DecidableEq

/-- The edge object assembled by addEdges: the literal initializes id, label,
source and target to undefined; type and weight properties are only created
when the corresponding marker column exists. -/
structure EdgeEntry where
  id : JsVal := .undef
  label : JsVal := .undef
  source : JsVal := .undef
  target : JsVal := .undef
  etype : Option JsVal := none
  weight : Option JsVal := none
  attributes : Option Record := none
  viz : Option Record := none
  deriving DecidableEq

/-- JS property-key conversion of a possibly-undefined schema id: an undefined
key is converted to the string "undefined". -/
def propKey : Option String → String
  | some s => s
  | none => "undefined"

/-- Writing into a lazily created sub-object: obj = obj or {}; obj[k] = v. -/
def setLazyField (m : Option Record) (k : String) (v : JsVal) : Option Record :=
  some (setField (m.getD []) k v)

/-- Column loop of addNodes (index.js:1048-1065) for one record. Note addNodes
tests target with genuine comparisons (==), unlike parseValues. A missing
schema[coli] makes the typeof test pass to the object branch and the property
read throw a TypeError. -/
def buildNodeGo (schema : List SchemaEl) (record : Record) :
    List String → Nat → NodeEntry → Except JsError NodeEntry
  | [], _, node => .ok node
  | header :: rest, coli, node =>
    match schema[coli]? with
    | none => .error (.typeError "Cannot read properties of undefined")
    | some (.marker tag) =>
        let value := getField record header
        let node2 :=
          if tag = "id" then { node with id := value }
          else if tag = "label" then { node with label := value }
          else node
        buildNodeGo schema record rest (coli + 1) node2
    | some (.struct target id _title _vtype) =>
        let value := getField record header
        if target = some "attributes" then
          buildNodeGo schema record rest (coli + 1)
            { node with attributes := setLazyField node.attributes (propKey id) value }
        else if target = some "viz" then
          buildNodeGo schema record rest (coli + 1)
            { node with viz := setLazyField node.viz (propKey id) value }
        else buildNodeGo schema record rest (coli + 1) node

/-- Record loop of addNodes (index.js:1042-1071): builds each node, applies the
label default and emits it. The default at index.js:1068 is node.label = id,
and id is not a declared identifier anywhere in scope, so under "use strict"
reaching it throws a ReferenceError instead of copying node.id. -/
def addNodesRecs (schema : List SchemaEl) (headers : List String) :
    List Record → Except JsError (List NodeEntry)
  | [] => .ok []
  | r :: rest =>
    match buildNodeGo schema r headers 0 {} with
    | .error e => .error e
    | .ok node =>
      if node.label = JsVal.undef then
        .error (.referenceError "id")
      else
        match addNodesRecs schema headers rest with
        | .error e => .error e
        | .ok nodes => .ok (node :: nodes)

/-- addNodes (index.js:1040-1072). The gexf library object is modelled as the
list of node entries handed to gexfObj.addNode, in call order. -/
def addNodes (records : List Record) (schema : List SchemaEl) :
    Except JsError (List NodeEntry) :=
  match records with
  | [] => .error (.typeError "Cannot convert undefined or null to object")
  | r0 :: _ => addNodesRecs schema (r0.map Prod.fst) records

/-- Column loop of addEdges (index.js:1085-1106) for one record. -/
def buildEdgeGo (schema : List SchemaEl) (record : Record) :
    List String → Nat → EdgeEntry → Except JsError EdgeEntry
  | [], _, edge => .ok edge
  | header :: rest, coli, edge =>
    match schema[coli]? with
    | none => .error (.typeError "Cannot read properties of undefined")
    | some (.marker tag) =>
        let value := getField record header
        let edge2 :=
          if tag = "id" then { edge with id := value }
          else if tag = "label" then { edge with label := value }
          else if tag = "type" then { edge with etype := some value }
          else if tag = "source" then { edge with source := value }
          else if tag = "target" then { edge with target := value }
          else if tag = "weight" then { edge with weight := some value }
          else edge
        buildEdgeGo schema record rest (coli + 1) edge2
    | some (.struct target id _title _vtype) =>
        let value := getField record header
        if target = some "attributes" then
          buildEdgeGo schema record rest (coli + 1)
            { edge with attributes := setLazyField edge.attributes (propKey id) value }
        else if target = some "viz" then
          buildEdgeGo schema record rest (coli + 1)
            { edge with viz := setLazyField edge.viz (propKey id) value }
        else buildEdgeGo schema record rest (coli + 1) edge

/-- Record loop of addEdges (index.js:1077-1113) with the function-scoped
counter idi (initialized to 1 at index.js:1076 and incremented only when an id
is synthesized): edge.id defaults to "e" + idi, then edge.label defaults to
edge.id. -/
def addEdgesRecs (schema : List SchemaEl) (headers : List String) :
    List Record → Nat → Except JsError (List EdgeEntry)
  | [], _ => .ok []
  | r :: rest, idi =>
    match buildEdgeGo schema r headers 0 {} with
    | .error e => .error e
    | .ok edge =>
      let p : EdgeEntry × Nat :=
        if edge.id = JsVal.undef then
          ({ edge with id := .str ("e" ++ Nat.repr idi) }, idi + 1)
        else (edge, idi)
      let edge2 := if p.1.label = JsVal.undef then { p.1 with label := p.1.id } else p.1
      match addEdgesRecs schema headers rest p.2 with
      | .error e => .error e
      | .ok edges => .ok (edge2 :: edges)

/-- addEdges (index.js:1074-1114), modelled like addNodes. -/
def addEdges (records : List Record) (schema : List SchemaEl) :
    Except JsError (List EdgeEntry) :=
  match records with
  | [] => .error (.typeError "Cannot convert undefined or null to object")
  | r0 :: _ => addEdgesRecs schema (r0.map Prod.fst) records 1

/-- One entry of the derived attribute model. -/
structure ModelEntry where
  id : Option String
  mtype : Option String
  title : Option String
  deriving DecidableEq

/-- deriveModel (index.js:1026-1038): projects the attribute-target structured
elements of a schema, in order. -/
def deriveModel (schema : List SchemaEl) : List ModelEntry :=
  schema.filterMap fun el =>
    match el with
    | .struct target id title vtype =>
        if target = some "attributes" then some ⟨id, vtype, title⟩ else none
    | .marker _ => none

/-- The populated gexf document: the derived models installed into graphParams
plus the node and edge entries added to the external gexf object. -/
structure GexfDoc where
  nodeModel : List ModelEntry
  edgeModel : List ModelEntry
  nodes : List NodeEntry
  edges : List EdgeEntry
  deriving DecidableEq

/-- createGexf (index.js:1002-1024): derive both models, create the document and
populate it; any exception rejects the promise. -/
def createGexf (nodeRecords edgeRecords : List Record)
    (nodeSchema edgeSchema : List SchemaEl) : Except JsError GexfDoc :=
  match addNodes nodeRecords nodeSchema with
  | .error e => .error e
  | .ok nodes =>
    match addEdges edgeRecords edgeSchema with
    | .error e => .error e
    | .ok edges =>
      .ok { nodeModel := deriveModel nodeSchema, edgeModel := deriveModel edgeSchema,
            nodes := nodes, edges := edges }

/-- What the convert promise resolves to: either the in-memory gexf object or a
saved-file path. The distinction exists in the documented contract; the code
only ever produces the document (see saveGexf). -/
inductive ConvertResult where
  | doc (g : GexfDoc)
  | savedPath (p : String)
  deriving DecidableEq

/-- saveGexf (index.js:1126-1134): serializes and writes the file; writeOk
abstracts the fs.writeFile callback outcome. On success it resolves to the
gexf object itself (resolve(gexfObj)), not to the path; on failure it rejects
with a single-quoted literal that even contains an uninterpolated placeholder. -/
def saveGexf (gexfObj : GexfDoc) (_path : String) (writeOk : Bool) :
    Except JsError ConvertResult :=
  if writeOk then .ok (.doc gexfObj)
  else .error (.jsError "Failed to save the Gexf file. $\x7berr\x7d")

/-- The post-parse inputs of one conversion: the record lists that csv.parse
delivered for the two files, the two schemas, and the optional saveAs path. -/
structure ConvertConfig where
  nodeRecords : List Record
  nodeSchema : List SchemaEl
  edgeRecords : List Record
  edgeSchema : List SchemaEl
  saveAs : Option String := none

/-- convert (index.js:771-795) from the point where both csv.parse callbacks
have delivered records: loadCSV checks and coerces each table against its
schema (index.js:825-826, sharing the mutated schema object with the later
stages), createGexf assembles the document, and the final then either saves
(saveAs set) or resolves to the document. Errors reject and propagate. -/
def convert (cfg : ConvertConfig) (writeOk : Bool) : Except JsError ConvertResult :=
  match checkSchema cfg.nodeRecords cfg.nodeSchema true with
  | .error e => .error e
  | .ok nSchema1 =>
    match parseValues cfg.nodeRecords nSchema1 true with
    | .error e => .error e
    | .ok (nRecs, nSchema2) =>
      match checkSchema cfg.edgeRecords cfg.edgeSchema false with
      | .error e => .error e
      | .ok eSchema1 =>
        match parseValues cfg.edgeRecords eSchema1 false with
        | .error e => .error e
        | .ok (eRecs, eSchema2) =>
          match createGexf nRecs eRecs nSchema2 eSchema2 with
          | .error e => .error e
          | .ok g =>
            match cfg.saveAs with
            | some p => saveGexf g p writeOk
            | none => .ok (.doc g)

/-- The normalized form of one schema element after checkSchema has processed
it against its column header: attribute elements get their missing id defaulted
to the header and their missing title defaulted to the id; everything else is
untouched. Used only to state lemmas about checkSchema. -/
def normalizeEl (el : SchemaEl) (hdr : String) : SchemaEl :=
  match el with
  | .marker tag => .marker tag
  | .struct target id title vtype =>
    if target = some "attributes" then
      .struct target (some (id.getD hdr)) (some (title.getD (id.getD hdr))) vtype
    else .struct target id title vtype

/-! Basic lemmas about the record model. -/

theorem getField_setField_self (r : Record) (k : String) (v : JsVal) :
    getField (setField r k v) k = v := by
  induction r with
  | nil => simp [setField, getField]
  | cons p rest ih =>
    by_cases h : p.1 = k
    · simp [setField, getField, h]
    · simp [setField, getField, h, ih]

theorem getField_setField_ne (r : Record) (k k2 : String) (v : JsVal) (h : k ≠ k2) :
    getField (setField r k v) k2 = getField r k2 := by
  induction r with
  | nil => simp [setField, getField, h]
  | cons p rest ih =>
    by_cases hp : p.1 = k
    · have hne : ¬ (p.1 = k2) := by rw [hp]; exact h
      simp [setField, getField, hp, hne, h]
    · by_cases hq : p.1 = k2
      · have h3 : ¬ (k2 = k) := fun hh => h hh.symm
        simp [setField, getField, hp, hq, h3]
      · simp [setField, getField, hp, hq, ih]

theorem mem_keys_setField_self (r : Record) (k : String) (v : JsVal) :
    k ∈ (setField r k v).map Prod.fst := by
  induction r with
  | nil => simp [setField]
  | cons p rest ih =>
    by_cases h : p.1 = k
    · simp [setField, h]
    · simp [setField, h]
      right
      simpa using ih

theorem mem_keys_setField_of_mem (r : Record) (k k2 : String) (v : JsVal)
    (h : k2 ∈ r.map Prod.fst) : k2 ∈ (setField r k v).map Prod.fst := by
  induction r with
  | nil => simp at h
  | cons p rest ih =>
    by_cases hp : p.1 = k
    · simpa [setField, hp] using h
    · simp [setField, hp] at h ⊢
      rcases h with h | h
      · exact Or.inl h
      · exact Or.inr (by simpa using ih (by simpa using h))

theorem list_set_of_getElem? {α : Type} (l : List α) (i : Nat) (a : α)
    (h : l[i]? = some a) : l.set i a = l := by
  induction l generalizing i with
  | nil => simp at h
  | cons x rest ih =>
    cases i with
    | zero => simp at h; simp [h]
    | succ j => simp at h; simp [ih j h]

/-! Injectivity of the decimal representation Nat.repr, needed to show the
synthesized edge identifiers are pairwise distinct. -/

theorem toDigitsCore_acc (b : Nat) (fuel : Nat) :
    ∀ (n : Nat) (ds : List Char),
      Nat.toDigitsCore b fuel n ds = Nat.toDigitsCore b fuel n [] ++ ds := by
  induction fuel with
  | zero => intro n ds; simp [Nat.toDigitsCore]
  | succ f ih =>
    intro n ds
    simp only [Nat.toDigitsCore]
    by_cases h : n / b = 0
    · simp [h]
    · simp only [h, if_false]
      rw [ih (n / b) (Nat.digitChar (n % b) :: ds), ih (n / b) [Nat.digitChar (n % b)]]
      simp

theorem toDigitsCore_fuel (n : Nat) :
    ∀ f1 f2, n < f1 → n < f2 →
      Nat.toDigitsCore 10 f1 n [] = Nat.toDigitsCore 10 f2 n [] := by
  induction n using Nat.strong_induction_on with
  | _ n ih =>
    intro f1 f2 h1 h2
    cases f1 with
    | zero => omega
    | succ a =>
      cases f2 with
      | zero => omega
      | succ b =>
        simp only [Nat.toDigitsCore]
        by_cases h : n / 10 = 0
        · simp [h]
        · simp only [h, if_false]
          rw [toDigitsCore_acc, toDigitsCore_acc 10 b]
          have hn : 0 < n := by
            rcases Nat.eq_zero_or_pos n with h0 | h0
            · exact absurd (by simp [h0]) h
            · exact h0
          have hd : n / 10 < n := Nat.div_lt_self hn (by norm_num)
          rw [ih (n / 10) hd a b (by omega) (by omega)]

theorem toDigitsCore_ne_nil (f n : Nat) (h : 0 < f) :
    Nat.toDigitsCore 10 f n [] ≠ [] := by
  cases f with
  | zero => omega
  | succ a =>
    simp only [Nat.toDigitsCore]
    by_cases h0 : n / 10 = 0
    · simp [h0]
    · simp only [h0, if_false]
      rw [toDigitsCore_acc]
      simp

theorem toDigits_lt10 (n : Nat) (h : n < 10) : Nat.toDigits 10 n = [Nat.digitChar n] := by
  have h0 : n / 10 = 0 := Nat.div_eq_of_lt h
  simp only [Nat.toDigits, Nat.toDigitsCore, h0, if_true]
  rw [Nat.mod_eq_of_lt h]

theorem toDigits_ge10 (n : Nat) (h : 10 ≤ n) :
    Nat.toDigits 10 n = Nat.toDigits 10 (n / 10) ++ [Nat.digitChar (n % 10)] := by
  have h0 : n / 10 ≠ 0 := Nat.pos_iff_ne_zero.mp (Nat.div_pos h (by norm_num))
  simp only [Nat.toDigits, Nat.toDigitsCore, h0, if_false]
  rw [toDigitsCore_acc]
  congr 1
  have hn : 0 < n := by omega
  exact toDigitsCore_fuel (n / 10) n (n / 10 + 1) (Nat.div_lt_self hn (by norm_num))
    (Nat.lt_succ_self _)

theorem digitChar_inj_lt10 :
    ∀ a < 10, ∀ b < 10, Nat.digitChar a = Nat.digitChar b → a = b := by decide

theorem toDigits_inj (n : Nat) :
    ∀ m, Nat.toDigits 10 n = Nat.toDigits 10 m → n = m := by
  induction n using Nat.strong_induction_on with
  | _ n ih =>
    intro m h
    by_cases hn : n < 10
    · by_cases hm : m < 10
      · rw [toDigits_lt10 n hn, toDigits_lt10 m hm] at h
        exact digitChar_inj_lt10 n hn m hm (by injection h)
      · rw [toDigits_lt10 n hn, toDigits_ge10 m (le_of_not_lt hm)] at h
        have hlen := congrArg List.length h
        have hne : Nat.toDigits 10 (m / 10) ≠ [] :=
          toDigitsCore_ne_nil (m / 10 + 1) (m / 10) (by omega)
        simp [List.length_append] at hlen
        exact absurd hlen.symm (fun hh => hne hh.symm)
    · by_cases hm : m < 10
      · rw [toDigits_lt10 m hm, toDigits_ge10 n (le_of_not_lt hn)] at h
        have hlen := congrArg List.length h
        have hne : Nat.toDigits 10 (n / 10) ≠ [] :=
          toDigitsCore_ne_nil (n / 10 + 1) (n / 10) (by omega)
        simp [List.length_append] at hlen
        exact absurd hlen hne
      · rw [toDigits_ge10 n (le_of_not_lt hn), toDigits_ge10 m (le_of_not_lt hm)] at h
        have hpair := List.append_inj' h (by simp)
        have hmod : n % 10 = m % 10 :=
          digitChar_inj_lt10 (n % 10) (Nat.mod_lt n (by norm_num)) (m % 10)
            (Nat.mod_lt m (by norm_num)) (by injection hpair.2)
        have hdiv : n / 10 = m / 10 :=
          ih (n / 10) (Nat.div_lt_self (by omega) (by norm_num)) (m / 10) hpair.1
        omega

theorem natRepr_inj (n m : Nat) (h : Nat.repr n = Nat.repr m) : n = m := by
  apply toDigits_inj
  have h2 := congrArg String.data h
  simpa [Nat.repr, List.asString] using h2

/-! Lemmas about parseColumn and the column loop of parseValues. -/

theorem parseColumn_ok_spec (header : String) (parseFn : JsVal → Except JsError JsVal) :
    ∀ (records out : List Record),
      parseColumn records header parseFn = .ok out →
      out.length = records.length ∧
      ∀ (j : Nat) r, records[j]? = some r →
        ∃ v, parseFn (getField r header) = .ok v ∧ out[j]? = some (setField r header v) := by
  intro records
  induction records with
  | nil =>
    intro out h
    simp [parseColumn] at h
    subst h
    simp
  | cons r rest ih =>
    intro out h
    cases hf : parseFn (getField r header) with
    | error e => simp [parseColumn, hf] at h
    | ok v =>
      cases hrec : parseColumn rest header parseFn with
      | error e => simp [parseColumn, hf, hrec] at h
      | ok rest2 =>
        simp [parseColumn, hf, hrec] at h
        subst h
        obtain ⟨hlen, hspec⟩ := ih rest2 hrec
        refine ⟨by simp [hlen], ?_⟩
        intro j rr hj
        cases j with
        | zero =>
          simp at hj
          subst hj
          exact ⟨v, hf, by simp⟩
        | succ i =>
          simp at hj
          obtain ⟨v2, hv2, hout⟩ := hspec i rr hj
          exact ⟨v2, hv2, by simpa using hout⟩

/-- One step of the parseValues column loop, for the facts most claims need:
the loop keeps the record count, changes cells only in the current column, and
its only schema mutation is the target overwrite of a structured element. -/
theorem parseValuesGo_cons_ok (isNode : Bool) (header : String) (rest : List String)
    (coli : Nat) (records : List Record) (schema : List SchemaEl)
    (out : List Record × List SchemaEl)
    (h : parseValuesGo isNode (header :: rest) coli records schema = .ok out) :
    ∃ records2 schema2,
      parseValuesGo isNode rest (coli + 1) records2 schema2 = .ok out ∧
      records2.length = records.length ∧
      (∀ (j : Nat) r, records[j]? = some r → ∃ r2, records2[j]? = some r2 ∧
          ∀ h2, h2 ≠ header → getField r2 h2 = getField r h2) ∧
      schema2.length = schema.length ∧
      (∀ i, i ≠ coli → schema2[i]? = schema[i]?) ∧
      (∀ t id ti ty, schema[coli]? = some (.struct t id ti ty) →
          schema2[coli]? = some (.struct (some "attributes") id ti ty)) ∧
      (∀ tag, schema[coli]? = some (.marker tag) → schema2 = schema) := by
  cases hsc : schema[coli]? with
  | none => simp [parseValuesGo, hsc] at h
  | some el =>
    cases el with
    | marker tag =>
      by_cases hw : tag = "weight"
      · cases hpc : parseColumn records header parseFloatJs with
        | error e => simp [parseValuesGo, hsc, hw, hpc] at h
        | ok records2 =>
          simp only [parseValuesGo, hsc, hw, if_true, hpc] at h
          obtain ⟨hlen, hspec⟩ := parseColumn_ok_spec header parseFloatJs records records2 hpc
          refine ⟨records2, schema, h, hlen, ?_, rfl, fun _ _ => rfl, ?_, fun _ _ => rfl⟩
          · intro j r hj
            obtain ⟨v, _, hout⟩ := hspec j r hj
            exact ⟨setField r header v, hout,
              fun h2 hne => getField_setField_ne r header h2 v (fun hh => hne hh.symm)⟩
          · intro t id ti ty hx
            exact absurd hx (by simp)
      · by_cases ht : tag = "type"
        · cases hac : assertColumn records edgeTypeAssertFn with
          | error e => simp [parseValuesGo, hsc, hw, ht, hac] at h
          | ok u =>
            simp only [parseValuesGo, hsc, hw, ht, if_true, if_false, hac] at h
            refine ⟨records, schema, h, rfl, ?_, rfl, fun _ _ => rfl, ?_, fun _ _ => rfl⟩
            · intro j r hj
              exact ⟨r, hj, fun _ _ => rfl⟩
            · intro t id ti ty hx
              exact absurd hx (by simp)
        · simp only [parseValuesGo, hsc, hw, ht, if_false] at h
          refine ⟨records, schema, h, rfl, ?_, rfl, fun _ _ => rfl, ?_, fun _ _ => rfl⟩
          · intro j r hj
            exact ⟨r, hj, fun _ _ => rfl⟩
          · intro t id ti ty hx
            exact absurd hx (by simp)
    | struct target id title vtype =>
      have hlt : coli < schema.length := (List.getElem?_eq_some.mp hsc).1
      have hset : (schema.set coli (.struct (some "attributes") id title vtype))[coli]? =
          some (.struct (some "attributes") id title vtype) :=
        List.getElem?_set_self hlt
      have hsetlen := List.length_set schema coli
        (SchemaEl.struct (some "attributes") id title vtype)
      have hfr : ∀ i, i ≠ coli →
          (schema.set coli (.struct (some "attributes") id title vtype))[i]? = schema[i]? :=
        fun i hi => List.getElem?_set_ne (fun hh => hi hh.symm)
      have hmk : ∀ tag, (some (SchemaEl.struct target id title vtype) : Option SchemaEl) =
          some (.marker tag) →
          schema.set coli (.struct (some "attributes") id title vtype) = schema := by
        intro tag hx
        exact absurd hx (by simp)
      have hst : ∀ t id2 ti2 ty2,
          (some (SchemaEl.struct target id title vtype) : Option SchemaEl) =
            some (.struct t id2 ti2 ty2) →
          (schema.set coli (.struct (some "attributes") id title vtype))[coli]? =
            some (.struct (some "attributes") id2 ti2 ty2) := by
        intro t id2 ti2 ty2 hx
        obtain ⟨ht, hid, hti, hty⟩ :
            target = t ∧ id = id2 ∧ title = ti2 ∧ vtype = ty2 := by
          injection hx with hx2
          injection hx2 with a b c d
          exact ⟨a, b, c, d⟩
        subst hid; subst hti; subst hty
        exact hset
      by_cases hint : vtype = some "integer"
      · cases hpc : parseColumn records header parseIntJs with
        | error e =>
          simp only [parseValuesGo, hsc] at h
          rw [if_pos hint, hpc] at h
          exact Except.noConfusion h
        | ok records2 =>
          simp only [parseValuesGo, hsc] at h
          rw [if_pos hint, hpc] at h
          obtain ⟨hlen, hspec⟩ := parseColumn_ok_spec header parseIntJs records records2 hpc
          refine ⟨records2, _, h, hlen, ?_, hsetlen, hfr, hst, hmk⟩
          intro j r hj
          obtain ⟨v, _, hout⟩ := hspec j r hj
          exact ⟨setField r header v, hout,
            fun h2 hne => getField_setField_ne r header h2 v (fun hh => hne hh.symm)⟩
      · by_cases hfl : vtype = some "float"
        · cases hpc : parseColumn records header parseFloatJs with
          | error e =>
            simp only [parseValuesGo, hsc] at h
            rw [if_neg hint, if_pos hfl, hpc] at h
            exact Except.noConfusion h
          | ok records2 =>
            simp only [parseValuesGo, hsc] at h
            rw [if_neg hint, if_pos hfl, hpc] at h
            obtain ⟨hlen, hspec⟩ := parseColumn_ok_spec header parseFloatJs records records2 hpc
            refine ⟨records2, _, h, hlen, ?_, hsetlen, hfr, hst, hmk⟩
            intro j r hj
            obtain ⟨v, _, hout⟩ := hspec j r hj
            exact ⟨setField r header v, hout,
              fun h2 hne => getField_setField_ne r header h2 v (fun hh => hne hh.symm)⟩
        · by_cases hbo : vtype = some "boolean"
          · cases hpc : parseColumn records header parseBoolean with
            | error e =>
              simp only [parseValuesGo, hsc] at h
              rw [if_neg hint, if_neg hfl, if_pos hbo, hpc] at h
              exact Except.noConfusion h
            | ok records2 =>
              simp only [parseValuesGo, hsc] at h
              rw [if_neg hint, if_neg hfl, if_pos hbo, hpc] at h
              obtain ⟨hlen, hspec⟩ := parseColumn_ok_spec header parseBoolean records records2 hpc
              refine ⟨records2, _, h, hlen, ?_, hsetlen, hfr, hst, hmk⟩
              intro j r hj
              obtain ⟨v, _, hout⟩ := hspec j r hj
              exact ⟨setField r header v, hout,
                fun h2 hne => getField_setField_ne r header h2 v (fun hh => hne hh.symm)⟩
          · simp only [parseValuesGo, hsc] at h
            rw [if_neg hint, if_neg hfl, if_neg hbo] at h
            refine ⟨records, _, h, rfl, ?_, hsetlen, hfr, hst, hmk⟩
            intro j r hj
            exact ⟨r, hj, fun _ _ => rfl⟩

/-- Running the column loop from coli leaves schema entries outside the window
untouched, keeps markers everywhere, and rewrites the target of every
structured element inside the window to "attributes". -/
theorem parseValuesGo_ok_schema (isNode : Bool) :
    ∀ (hs : List String) (coli : Nat) (records : List Record) (schema : List SchemaEl)
      (out : List Record × List SchemaEl),
      parseValuesGo isNode hs coli records schema = .ok out →
      out.2.length = schema.length ∧
      (∀ i, i < coli ∨ coli + hs.length ≤ i → out.2[i]? = schema[i]?) ∧
      (∀ (i : Nat) tag, schema[i]? = some (.marker tag) → out.2[i]? = some (.marker tag)) ∧
      (∀ p t id ti ty, p < hs.length → schema[coli + p]? = some (.struct t id ti ty) →
          out.2[coli + p]? = some (.struct (some "attributes") id ti ty)) := by
  intro hs
  induction hs with
  | nil =>
    intro coli records schema out h
    simp [parseValuesGo] at h
    rw [← h]
    refine ⟨rfl, fun i _ => rfl, fun i tag hx => hx, fun p t id ti ty hp => ?_⟩
    simp at hp
  | cons header rest ih =>
    intro coli records schema out h
    obtain ⟨records2, schema2, hcont, _hrlen, _hrpt, hslen, hfr, hst, hmk⟩ :=
      parseValuesGo_cons_ok isNode header rest coli records schema out h
    obtain ⟨ihlen, ihfr, ihmk, ihst⟩ := ih (coli + 1) records2 schema2 out hcont
    refine ⟨by rw [ihlen, hslen], ?_, ?_, ?_⟩
    · intro i hi
      have h1 : out.2[i]? = schema2[i]? := by
        apply ihfr
        rcases hi with hlt | hge
        · exact Or.inl (by omega)
        · simp only [List.length_cons] at hge
          exact Or.inr (by omega)
      have h2 : schema2[i]? = schema[i]? := by
        apply hfr
        rcases hi with hlt | hge
        · omega
        · simp only [List.length_cons] at hge
          omega
      rw [h1, h2]
    · intro i tag hx
      by_cases hcase : i = coli
      · subst hcase
        have hs2 : schema2 = schema := hmk tag hx
        exact ihmk i tag (by rw [hs2]; exact hx)
      · have h2 : schema2[i]? = schema[i]? := hfr i hcase
        exact ihmk i tag (by rw [h2]; exact hx)
    · intro p t id ti ty hp hx
      cases p with
      | zero =>
        rw [Nat.add_zero] at hx ⊢
        have h1 : schema2[coli]? = some (.struct (some "attributes") id ti ty) :=
          hst t id ti ty hx
        have h2 : out.2[coli]? = schema2[coli]? := ihfr coli (Or.inl (by omega))
        rw [h2, h1]
      | succ q =>
        have hidx : coli + (q + 1) = (coli + 1) + q := by omega
        rw [hidx] at hx ⊢
        have hne : (coli + 1) + q ≠ coli := by omega
        have h2 : schema2[(coli + 1) + q]? = schema[(coli + 1) + q]? := hfr _ hne
        apply ihst q t id ti ty
        · simp only [List.length_cons] at hp
          omega
        · rw [h2]
          exact hx

/-- The column loop never touches record cells outside the processed headers. -/
theorem parseValuesGo_ok_records_frame (isNode : Bool) :
    ∀ (hs : List String) (coli : Nat) (records : List Record) (schema : List SchemaEl)
      (out : List Record × List SchemaEl) (h2 : String),
      parseValuesGo isNode hs coli records schema = .ok out →
      h2 ∉ hs →
      out.1.length = records.length ∧
      ∀ (j : Nat) r, records[j]? = some r → ∃ r2, out.1[j]? = some r2 ∧
        getField r2 h2 = getField r h2 := by
  intro hs
  induction hs with
  | nil =>
    intro coli records schema out h2 h _
    simp [parseValuesGo] at h
    rw [← h]
    exact ⟨rfl, fun j r hj => ⟨r, hj, rfl⟩⟩
  | cons header rest ih =>
    intro coli records schema out h2 h hmem
    obtain ⟨records2, schema2, hcont, hrlen, hrpt, _, _, _, _⟩ :=
      parseValuesGo_cons_ok isNode header rest coli records schema out h
    have hne : h2 ≠ header := fun hh => hmem (by rw [hh]; exact List.mem_cons_self _ _)
    have hrest : h2 ∉ rest := fun hh => hmem (List.mem_cons_of_mem _ hh)
    obtain ⟨ihlen, ihpt⟩ := ih (coli + 1) records2 schema2 out h2 hcont hrest
    refine ⟨by rw [ihlen, hrlen], ?_⟩
    intro j r hj
    obtain ⟨r2a, hj2, hpre⟩ := hrpt j r hj
    obtain ⟨r2, hj3, hpre2⟩ := ihpt j r2a hj2
    exact ⟨r2, hj3, by rw [hpre2, hpre h2 hne]⟩

/-- The effect of a boolean attribute column: when the whole loop succeeds,
every cell of that column was a string and ends as the boolean prescribed by
parseBoolean. -/
theorem parseValuesGo_ok_bool (isNode : Bool) :
    ∀ (hs : List String) (coli : Nat) (records : List Record) (schema : List SchemaEl)
      (out : List Record × List SchemaEl) (p : Nat) (header : String)
      (tgt id ti : Option String),
      parseValuesGo isNode hs coli records schema = .ok out →
      hs.Nodup →
      hs[p]? = some header →
      schema[coli + p]? = some (.struct tgt id ti (some "boolean")) →
      out.1.length = records.length ∧
      ∀ (j : Nat) r, records[j]? = some r → ∃ s, getField r header = .str s ∧
        ∃ r2, out.1[j]? = some r2 ∧
          getField r2 header = .boolV (jsToUpperCase s == "TRUE" || s == "1") := by
  intro hs
  induction hs with
  | nil =>
    intro coli records schema out p header tgt id ti _ _ hp _
    simp at hp
  | cons header0 rest ih =>
    intro coli records schema out p header tgt id ti h hnd hp hcol
    cases p with
    | zero =>
      have hh : header0 = header := by simpa using hp
      subst hh
      rw [Nat.add_zero] at hcol
      simp only [parseValuesGo, hcol, if_true] at h
      cases hpc : parseColumn records header0 parseBoolean with
      | error e => rw [hpc] at h; exact Except.noConfusion h
      | ok records2 =>
        rw [hpc] at h
        obtain ⟨hlen, hspec⟩ := parseColumn_ok_spec header0 parseBoolean records records2 hpc
        have hnotin : header0 ∉ rest := (List.nodup_cons.mp hnd).1
        obtain ⟨ihlen, ihpt⟩ :=
          parseValuesGo_ok_records_frame isNode rest (coli + 1) records2 _ out header0 h hnotin
        refine ⟨by rw [ihlen, hlen], ?_⟩
        intro j r hj
        obtain ⟨v, hv, hout⟩ := hspec j r hj
        cases hg : getField r header0 with
        | str s =>
          rw [hg] at hv
          simp [parseBoolean] at hv
          obtain ⟨r2, hj2, hpre⟩ := ihpt j _ hout
          refine ⟨s, rfl, r2, hj2, ?_⟩
          rw [hpre, getField_setField_self, ← hv]
        | boolV b => rw [hg] at hv; simp [parseBoolean] at hv
        | parsedInt a => rw [hg] at hv; simp [parseBoolean] at hv
        | parsedFloat a => rw [hg] at hv; simp [parseBoolean] at hv
        | undef => rw [hg] at hv; simp [parseBoolean] at hv
    | succ q =>
      obtain ⟨records2, schema2, hcont, hrlen, hrpt, _, hfr, _, _⟩ :=
        parseValuesGo_cons_ok isNode header0 rest coli records schema out h
      have hpq : rest[q]? = some header := by simpa using hp
      have hmemq : header ∈ rest := List.mem_iff_getElem?.mpr ⟨q, hpq⟩
      have hne : header ≠ header0 := by
        intro hh
        exact (List.nodup_cons.mp hnd).1 (hh ▸ hmemq)
      have hidx : coli + (q + 1) = (coli + 1) + q := by omega
      rw [hidx] at hcol
      have hcol2 : schema2[(coli + 1) + q]? =
          some (.struct tgt id ti (some "boolean")) := by
        rw [hfr _ (by omega)]
        exact hcol
      obtain ⟨ihlen, ihpt⟩ := ih (coli + 1) records2 schema2 out q header tgt id ti
        hcont (List.nodup_cons.mp hnd).2 hpq hcol2
      refine ⟨by rw [ihlen, hrlen], ?_⟩
      intro j r hj
      obtain ⟨r2a, hj2, hpre⟩ := hrpt j r hj
      obtain ⟨s, hs2, r2, hj3, hval⟩ := ihpt j r2a hj2
      refine ⟨s, ?_, r2, hj3, hval⟩
      rw [← hs2, hpre header hne]

/-! Lemmas about the column loop of checkSchema. -/

theorem ccGo_spec_combine_id (rest : List String) (coli : Nat)
    (schema schema2 : List SchemaEl) (hdr : String) (el : SchemaEl)
    (hlen2 : schema2.length = schema.length)
    (hfr2 : ∀ i, i < coli + 1 ∨ (coli + 1) + rest.length ≤ i → schema2[i]? = schema[i]?)
    (hcl3 : ∀ (p : Nat) hdr2, rest[p]? = some hdr2 → ∀ el2, schema[(coli + 1) + p]? = some el2 →
        schema2[(coli + 1) + p]? = some (normalizeEl el2 hdr2))
    (hsc : schema[coli]? = some el)
    (hnorm : normalizeEl el hdr = el) :
    schema2.length = schema.length ∧
    (∀ i, i < coli ∨ coli + (hdr :: rest).length ≤ i → schema2[i]? = schema[i]?) ∧
    (∀ (p : Nat) hdr2, (hdr :: rest)[p]? = some hdr2 → ∀ el2, schema[coli + p]? = some el2 →
        schema2[coli + p]? = some (normalizeEl el2 hdr2)) := by
  refine ⟨hlen2, ?_, ?_⟩
  · intro i hi
    apply hfr2
    simp only [List.length_cons] at hi
    omega
  · intro p hdr2 hp el2 hel2
    cases p with
    | zero =>
      have hh : hdr = hdr2 := by simpa using hp
      rw [Nat.add_zero] at hel2 ⊢
      have he : el2 = el := by rw [hsc] at hel2; exact (Option.some.inj hel2).symm
      subst he
      subst hh
      rw [hnorm, ← hsc]
      exact hfr2 coli (Or.inl (by omega))
    | succ q =>
      have hidx : coli + (q + 1) = (coli + 1) + q := by omega
      rw [hidx] at hel2 ⊢
      exact hcl3 q hdr2 (by simpa using hp) el2 hel2

theorem ccGo_spec_combine_set (rest : List String) (coli : Nat)
    (schema schema2 : List SchemaEl) (hdr : String) (el : SchemaEl)
    (hlt : coli < schema.length)
    (hlen2 : schema2.length = (schema.set coli (normalizeEl el hdr)).length)
    (hfr2 : ∀ i, i < coli + 1 ∨ (coli + 1) + rest.length ≤ i →
        schema2[i]? = (schema.set coli (normalizeEl el hdr))[i]?)
    (hcl3 : ∀ (p : Nat) hdr2, rest[p]? = some hdr2 →
        ∀ el2, (schema.set coli (normalizeEl el hdr))[(coli + 1) + p]? = some el2 →
        schema2[(coli + 1) + p]? = some (normalizeEl el2 hdr2))
    (hsc : schema[coli]? = some el) :
    schema2.length = schema.length ∧
    (∀ i, i < coli ∨ coli + (hdr :: rest).length ≤ i → schema2[i]? = schema[i]?) ∧
    (∀ (p : Nat) hdr2, (hdr :: rest)[p]? = some hdr2 → ∀ el2, schema[coli + p]? = some el2 →
        schema2[coli + p]? = some (normalizeEl el2 hdr2)) := by
  refine ⟨by rw [hlen2, List.length_set], ?_, ?_⟩
  · intro i hi
    simp only [List.length_cons] at hi
    have h1 : schema2[i]? = (schema.set coli (normalizeEl el hdr))[i]? := by
      apply hfr2
      omega
    have hne : coli ≠ i := by omega
    rw [h1, List.getElem?_set_ne hne]
  · intro p hdr2 hp el2 hel2
    cases p with
    | zero =>
      have hh : hdr = hdr2 := by simpa using hp
      rw [Nat.add_zero] at hel2 ⊢
      have he : el2 = el := by rw [hsc] at hel2; exact (Option.some.inj hel2).symm
      subst he
      subst hh
      have h1 : schema2[coli]? = (schema.set coli (normalizeEl el2 hdr))[coli]? :=
        hfr2 coli (Or.inl (by omega))
      rw [h1, List.getElem?_set_self hlt]
    | succ q =>
      have hidx : coli + (q + 1) = (coli + 1) + q := by omega
      rw [hidx] at hel2 ⊢
      apply hcl3 q hdr2 (by simpa using hp) el2
      rw [List.getElem?_set_ne (by omega)]
      exact hel2

/-- The checkSchema column loop, when it succeeds, keeps the schema length,
leaves entries outside the processed window untouched, and rewrites each entry
inside the window to its normalized form with respect to its column header. -/
theorem checkColumnsGo_ok_spec (isNode : Bool) :
    ∀ (hs : List String) (coli : Nat) (schema schema2 : List SchemaEl),
      checkColumnsGo isNode hs coli schema = .ok schema2 →
      schema2.length = schema.length ∧
      (∀ i, i < coli ∨ coli + hs.length ≤ i → schema2[i]? = schema[i]?) ∧
      (∀ (p : Nat) hdr, hs[p]? = some hdr → ∀ el, schema[coli + p]? = some el →
          schema2[coli + p]? = some (normalizeEl el hdr)) := by
  intro hs
  induction hs with
  | nil =>
    intro coli schema schema2 h
    simp [checkColumnsGo] at h
    subst h
    refine ⟨rfl, fun i _ => rfl, fun p hdr hp => ?_⟩
    simp at hp
  | cons hdr rest ih =>
    intro coli schema schema2 h
    cases hsc : schema[coli]? with
    | none => simp [checkColumnsGo, hsc] at h
    | some el =>
      cases el with
      | marker tag =>
        by_cases h1 : isNode = true ∧ tag ∉ nodeStringSpecs
        · simp [checkColumnsGo, hsc, h1] at h
        · by_cases h2 : isNode = false ∧ tag ∉ edgeStringSpecs
          · simp [checkColumnsGo, hsc, h1, h2] at h
          · have hcont : checkColumnsGo isNode rest (coli + 1) schema = .ok schema2 := by
              simpa [checkColumnsGo, hsc, h1, h2] using h
            obtain ⟨hlen2, hfr2, hcl3⟩ := ih (coli + 1) schema schema2 hcont
            exact ccGo_spec_combine_id rest coli schema schema2 hdr _ hlen2 hfr2 hcl3 hsc
              (by simp [normalizeEl])
      | struct target id title vtype =>
        have hlt : coli < schema.length := (List.getElem?_eq_some.mp hsc).1
        by_cases htg : target = some "attributes"
        · by_cases hat : optMem vtype attributeTypes = true
          · have hcont : checkColumnsGo isNode rest (coli + 1)
                (schema.set coli (normalizeEl (.struct target id title vtype) hdr)) =
                .ok schema2 := by
              simpa [checkColumnsGo, hsc, htg, hat, normalizeEl] using h
            obtain ⟨hlen2, hfr2, hcl3⟩ := ih (coli + 1) _ schema2 hcont
            exact ccGo_spec_combine_set rest coli schema schema2 hdr _ hlt hlen2 hfr2 hcl3 hsc
          · simp [checkColumnsGo, hsc, htg, hat] at h
        · by_cases hvz : target = some "viz"
          · by_cases hn : isNode = true
            · by_cases hid : optMem id nodeVizIds = true
              · have hcont : checkColumnsGo isNode rest (coli + 1) schema = .ok schema2 := by
                  simpa [checkColumnsGo, hsc, htg, hvz, hn, hid] using h
                obtain ⟨hlen2, hfr2, hcl3⟩ := ih (coli + 1) schema schema2 hcont
                exact ccGo_spec_combine_id rest coli schema schema2 hdr _ hlen2 hfr2 hcl3 hsc
                  (by simp [normalizeEl, htg])
              · simp [checkColumnsGo, hsc, htg, hvz, hn, hid] at h
            · have hn2 : isNode = false := by simpa using hn
              cases id with
              | none => simp [checkColumnsGo, hsc, htg, hvz, hn2] at h
              | some idv =>
                by_cases hiv : idv ∈ edgeVizIds
                · have hcont : checkColumnsGo isNode rest (coli + 1) schema = .ok schema2 := by
                    simpa [checkColumnsGo, hsc, htg, hvz, hn2, hiv] using h
                  obtain ⟨hlen2, hfr2, hcl3⟩ := ih (coli + 1) schema schema2 hcont
                  exact ccGo_spec_combine_id rest coli schema schema2 hdr _ hlen2 hfr2 hcl3 hsc
                    (by simp [normalizeEl, htg])
                · simp [checkColumnsGo, hsc, htg, hvz, hn2, hiv] at h
          · simp [checkColumnsGo, hsc, htg, hvz] at h

/-- Re-running the checkSchema column loop on its own output changes nothing. -/
theorem checkColumnsGo_idem (isNode : Bool) :
    ∀ (hs : List String) (coli : Nat) (schema schema2 : List SchemaEl),
      checkColumnsGo isNode hs coli schema = .ok schema2 →
      checkColumnsGo isNode hs coli schema2 = .ok schema2 := by
  intro hs
  induction hs with
  | nil =>
    intro coli schema schema2 h
    simp [checkColumnsGo] at h
    subst h
    simp [checkColumnsGo]
  | cons hdr rest ih =>
    intro coli schema schema2 h
    cases hsc : schema[coli]? with
    | none => simp [checkColumnsGo, hsc] at h
    | some el =>
      cases el with
      | marker tag =>
        by_cases h1 : isNode = true ∧ tag ∉ nodeStringSpecs
        · simp [checkColumnsGo, hsc, h1] at h
        · by_cases h2 : isNode = false ∧ tag ∉ edgeStringSpecs
          · simp [checkColumnsGo, hsc, h1, h2] at h
          · have hcont : checkColumnsGo isNode rest (coli + 1) schema = .ok schema2 := by
              simpa [checkColumnsGo, hsc, h1, h2] using h
            have hsc2 : schema2[coli]? = some (SchemaEl.marker tag) := by
              obtain ⟨_, hfr2, _⟩ :=
                checkColumnsGo_ok_spec isNode rest (coli + 1) schema schema2 hcont
              rw [hfr2 coli (Or.inl (by omega))]
              exact hsc
            have hgoal : checkColumnsGo isNode (hdr :: rest) coli schema2 =
                checkColumnsGo isNode rest (coli + 1) schema2 := by
              simp [checkColumnsGo, hsc2, h1, h2]
            rw [hgoal]
            exact ih (coli + 1) schema schema2 hcont
      | struct target id title vtype =>
        have hlt : coli < schema.length := (List.getElem?_eq_some.mp hsc).1
        by_cases htg : target = some "attributes"
        · subst htg
          by_cases hat : optMem vtype attributeTypes = true
          · have hcont : checkColumnsGo isNode rest (coli + 1)
                (schema.set coli
                  (normalizeEl (.struct (some "attributes") id title vtype) hdr)) =
                .ok schema2 := by
              simpa [checkColumnsGo, hsc, hat, normalizeEl] using h
            have hnorm : normalizeEl (SchemaEl.struct (some "attributes") id title vtype) hdr =
                SchemaEl.struct (some "attributes") (some (id.getD hdr))
                  (some (title.getD (id.getD hdr))) vtype := by
              simp [normalizeEl]
            have hsc2 : schema2[coli]? =
                some (SchemaEl.struct (some "attributes") (some (id.getD hdr))
                  (some (title.getD (id.getD hdr))) vtype) := by
              obtain ⟨_, hfr2, _⟩ :=
                checkColumnsGo_ok_spec isNode rest (coli + 1) _ schema2 hcont
              rw [hfr2 coli (Or.inl (by omega)), ← hnorm]
              exact List.getElem?_set_self hlt
            have hset2 : schema2.set coli (SchemaEl.struct (some "attributes")
                (some (id.getD hdr)) (some (title.getD (id.getD hdr))) vtype) = schema2 :=
              list_set_of_getElem? schema2 coli _ hsc2
            have hgoal : checkColumnsGo isNode (hdr :: rest) coli schema2 =
                checkColumnsGo isNode rest (coli + 1) schema2 := by
              simp [checkColumnsGo, hsc2, hat, hset2]
            rw [hgoal]
            exact ih (coli + 1) _ schema2 hcont
          · simp [checkColumnsGo, hsc, hat] at h
        · by_cases hvz : target = some "viz"
          · by_cases hn : isNode = true
            · by_cases hid : optMem id nodeVizIds = true
              · have hcont : checkColumnsGo isNode rest (coli + 1) schema = .ok schema2 := by
                  simpa [checkColumnsGo, hsc, htg, hvz, hn, hid] using h
                have hsc2 : schema2[coli]? = some (SchemaEl.struct target id title vtype) := by
                  obtain ⟨_, hfr2, _⟩ :=
                    checkColumnsGo_ok_spec isNode rest (coli + 1) schema schema2 hcont
                  rw [hfr2 coli (Or.inl (by omega))]
                  exact hsc
                have hgoal : checkColumnsGo isNode (hdr :: rest) coli schema2 =
                    checkColumnsGo isNode rest (coli + 1) schema2 := by
                  simp [checkColumnsGo, hsc2, htg, hvz, hn, hid]
                rw [hgoal]
                exact ih (coli + 1) schema schema2 hcont
              · simp [checkColumnsGo, hsc, htg, hvz, hn, hid] at h
            · have hn2 : isNode = false := by simpa using hn
              cases id with
              | none => simp [checkColumnsGo, hsc, htg, hvz, hn2] at h
              | some idv =>
                by_cases hiv : idv ∈ edgeVizIds
                · have hcont : checkColumnsGo isNode rest (coli + 1) schema = .ok schema2 := by
                    simpa [checkColumnsGo, hsc, htg, hvz, hn2, hiv] using h
                  have hsc2 : schema2[coli]? =
                      some (SchemaEl.struct target (some idv) title vtype) := by
                    obtain ⟨_, hfr2, _⟩ :=
                      checkColumnsGo_ok_spec isNode rest (coli + 1) schema schema2 hcont
                    rw [hfr2 coli (Or.inl (by omega))]
                    exact hsc
                  have hgoal : checkColumnsGo isNode (hdr :: rest) coli schema2 =
                      checkColumnsGo isNode rest (coli + 1) schema2 := by
                    simp [checkColumnsGo, hsc2, htg, hvz, hn2, hiv]
                  rw [hgoal]
                  exact ih (coli + 1) schema schema2 hcont
                · simp [checkColumnsGo, hsc, htg, hvz, hn2, hiv] at h
          · simp [checkColumnsGo, hsc, htg, hvz] at h

/-- schemaIndexOfGo is negative exactly when no element matches. -/
theorem schemaIndexOfGo_neg (s : String) :
    ∀ (l : List SchemaEl) (i : Nat),
      schemaIndexOfGo s l i < 0 ↔ ∀ el ∈ l, schemaElEqStr el s = false := by
  intro l
  induction l with
  | nil => intro i; simp [schemaIndexOfGo]
  | cons el rest ih =>
    intro i
    by_cases he : schemaElEqStr el s = true
    · have hstep : schemaIndexOfGo s (el :: rest) i = (i : Int) := by
        simp [schemaIndexOfGo, he]
      rw [hstep]
      constructor
      · intro hlt
        exact absurd hlt (by omega)
      · intro hall
        have h3 := hall el (List.mem_cons_self _ _)
        rw [he] at h3
        exact absurd h3 (by simp)
    · have he2 : schemaElEqStr el s = false := by simpa using he
      have hstep : schemaIndexOfGo s (el :: rest) i = schemaIndexOfGo s rest (i + 1) := by
        simp [schemaIndexOfGo, he2]
      rw [hstep, ih (i + 1)]
      constructor
      · intro hall el2 hmem
        rcases List.mem_cons.mp hmem with hx | hx
        · rw [hx]; exact he2
        · exact hall el2 hx
      · intro hall el2 hmem
        exact hall el2 (List.mem_cons_of_mem _ hmem)

/-- Normalization does not change how an element compares to a marker string. -/
theorem schemaElEqStr_normalizeEl (el : SchemaEl) (hdr : String) (s : String) :
    schemaElEqStr (normalizeEl el hdr) s = schemaElEqStr el s := by
  cases el with
  | marker tag => simp [normalizeEl]
  | struct target id title vtype =>
    by_cases htg : target = some "attributes"
    · simp [normalizeEl, htg, schemaElEqStr]
    · simp [normalizeEl, htg]

/-- Unfolding a successful checkSchema run into its pieces. -/
theorem checkSchema_ok_parts (records : List Record) (schema schema2 : List SchemaEl)
    (isNode : Bool) (h : checkSchema records schema isNode = .ok schema2) :
    ∃ r0 rest, records = r0 :: rest ∧
      (r0.map Prod.fst).length = schema.length ∧
      ¬(isNode = true ∧ schemaIndexOf schema "id" < 0) ∧
      ¬(isNode = false ∧ schemaIndexOf schema "source" < 0) ∧
      ¬(isNode = false ∧ schemaIndexOf schema "target" < 0) ∧
      checkColumnsGo isNode (r0.map Prod.fst) 0 schema = .ok schema2 := by
  cases records with
  | nil => simp [checkSchema] at h
  | cons r0 rest =>
    refine ⟨r0, rest, rfl, ?_⟩
    by_cases hlen : r0.length = schema.length
    · by_cases hid : isNode = true ∧ schemaIndexOf schema "id" < 0
      · obtain ⟨hn, hlt⟩ := hid
        simp [checkSchema, hlen, hn, hlt] at h
      · by_cases hsrc : isNode = false ∧ schemaIndexOf schema "source" < 0
        · obtain ⟨hn, hlt⟩ := hsrc
          simp [checkSchema, hlen, hn, hlt] at h
        · by_cases htgt : isNode = false ∧ schemaIndexOf schema "target" < 0
          · obtain ⟨hn, hlt⟩ := htgt
            have hsrcneg : ¬ schemaIndexOf schema "source" < 0 := fun hx => hsrc ⟨hn, hx⟩
            simp [checkSchema, hlen, hn, hlt, hsrcneg] at h
          · refine ⟨by simpa using hlen, hid, hsrc, htgt, ?_⟩
            simpa [checkSchema, hlen, hid, hsrc, htgt] using h
    · simp [checkSchema, hlen] at h

/-- A successful checkSchema run is idempotent: re-running on the defaulted
schema succeeds and changes nothing. -/
theorem checkSchema_idem (records : List Record) (schema schema2 : List SchemaEl)
    (isNode : Bool) (h : checkSchema records schema isNode = .ok schema2) :
    checkSchema records schema2 isNode = .ok schema2 := by
  obtain ⟨r0, rest, hrec, hlen, hid, hsrc, htgt, hcc⟩ :=
    checkSchema_ok_parts records schema schema2 isNode h
  subst hrec
  obtain ⟨hlen2, hfr2, hcl3⟩ :=
    checkColumnsGo_ok_spec isNode (r0.map Prod.fst) 0 schema schema2 hcc
  have htrans : ∀ s, schemaIndexOf schema2 s < 0 ↔ schemaIndexOf schema s < 0 := by
    intro s
    rw [schemaIndexOf, schemaIndexOf, schemaIndexOfGo_neg, schemaIndexOfGo_neg]
    constructor
    · intro hall el hmem
      obtain ⟨i, hi⟩ := List.mem_iff_getElem?.mp hmem
      have hilt : i < schema.length := (List.getElem?_eq_some.mp hi).1
      have hilt2 : i < (r0.map Prod.fst).length := by rw [hlen]; exact hilt
      have hhd : (r0.map Prod.fst)[i]? = some ((r0.map Prod.fst)[i]) :=
        List.getElem?_eq_getElem hilt2
      have h2i := hcl3 i _ hhd el (by simpa using hi)
      have hmem2 : normalizeEl el ((r0.map Prod.fst)[i]) ∈ schema2 :=
        List.getElem?_mem (by simpa using h2i)
      have h3 := hall _ hmem2
      rwa [schemaElEqStr_normalizeEl] at h3
    · intro hall el2 hmem2
      obtain ⟨i, hi2⟩ := List.mem_iff_getElem?.mp hmem2
      have hilt : i < schema2.length := (List.getElem?_eq_some.mp hi2).1
      have hilt1 : i < schema.length := by rw [← hlen2]; exact hilt
      have hel1 : schema[i]? = some (schema[i]) := List.getElem?_eq_getElem hilt1
      have hilt2 : i < (r0.map Prod.fst).length := by rw [hlen]; exact hilt1
      have hhd : (r0.map Prod.fst)[i]? = some ((r0.map Prod.fst)[i]) :=
        List.getElem?_eq_getElem hilt2
      have h2i := hcl3 i _ hhd (schema[i]) (by simp [hel1])
      have hform : el2 = normalizeEl (schema[i]) ((r0.map Prod.fst)[i]) := by
        have h2b : schema2[i]? = some (normalizeEl (schema[i]) ((r0.map Prod.fst)[i])) := by
          simpa using h2i
        rw [hi2] at h2b
        exact Option.some.inj h2b
      rw [hform, schemaElEqStr_normalizeEl]
      exact hall _ (List.getElem?_mem hel1)
  have hlenEq2 : r0.length = schema2.length := by
    rw [hlen2]; simpa using hlen
  have hid2 : ¬(isNode = true ∧ schemaIndexOf schema2 "id" < 0) := by
    rintro ⟨ha, hb⟩
    exact hid ⟨ha, (htrans "id").mp hb⟩
  have hsrc2 : ¬(isNode = false ∧ schemaIndexOf schema2 "source" < 0) := by
    rintro ⟨ha, hb⟩
    exact hsrc ⟨ha, (htrans "source").mp hb⟩
  have htgt2 : ¬(isNode = false ∧ schemaIndexOf schema2 "target" < 0) := by
    rintro ⟨ha, hb⟩
    exact htgt ⟨ha, (htrans "target").mp hb⟩
  have hcc2 := checkColumnsGo_idem isNode (r0.map Prod.fst) 0 schema schema2 hcc
  simp [checkSchema, hlenEq2, hid2, hsrc2, htgt2, hcc2]

/-! Lemmas about the assembly loops. -/

/-- When every structured element of a schema routes to attributes, building a
node never takes the viz branch, only adds attribute keys, and records a key
for every structured column it processes. -/
theorem buildNodeGo_ok_shape (schema : List SchemaEl) (record : Record)
    (hall : ∀ (i : Nat) t id ti ty, schema[i]? = some (.struct t id ti ty) →
        t = some "attributes") :
    ∀ (hs : List String) (coli : Nat) (node node2 : NodeEntry),
      buildNodeGo schema record hs coli node = .ok node2 →
      node2.viz = node.viz ∧
      (∀ k, k ∈ (node.attributes.getD []).map Prod.fst →
          k ∈ (node2.attributes.getD []).map Prod.fst) ∧
      (∀ (p : Nat) t id ti ty, p < hs.length →
          schema[coli + p]? = some (.struct t id ti ty) →
          propKey id ∈ (node2.attributes.getD []).map Prod.fst) := by
  intro hs
  induction hs with
  | nil =>
    intro coli node node2 h
    simp [buildNodeGo] at h
    subst h
    exact ⟨rfl, fun k hk => hk, fun p t id ti ty hp => by simp at hp⟩
  | cons header rest ih =>
    intro coli node node2 h
    cases hsc : schema[coli]? with
    | none => simp [buildNodeGo, hsc] at h
    | some el =>
      cases el with
      | marker tag =>
        have hcont : buildNodeGo schema record rest (coli + 1)
            (if tag = "id" then { node with id := getField record header }
             else if tag = "label" then { node with label := getField record header }
             else node) = .ok node2 := by
          simpa [buildNodeGo, hsc] using h
        obtain ⟨hv, hmono, hcols⟩ := ih (coli + 1) _ node2 hcont
        have hviz3 : (if tag = "id" then { node with id := getField record header }
             else if tag = "label" then { node with label := getField record header }
             else node).viz = node.viz := by split_ifs <;> rfl
        have hattr3 : (if tag = "id" then { node with id := getField record header }
             else if tag = "label" then { node with label := getField record header }
             else node).attributes = node.attributes := by split_ifs <;> rfl
        refine ⟨by rw [hv, hviz3], ?_, ?_⟩
        · intro k hk
          apply hmono
          rw [hattr3]
          exact hk
        · intro p t id ti ty hp hcol
          cases p with
          | zero =>
            rw [Nat.add_zero] at hcol
            rw [hsc] at hcol
            exact absurd hcol (by simp)
          | succ q =>
            have hidx : coli + (q + 1) = (coli + 1) + q := by omega
            rw [hidx] at hcol
            exact hcols q t id ti ty (by simp at hp; omega) hcol
      | struct target id ti ty =>
        have htg : target = some "attributes" := hall coli target id ti ty hsc
        subst htg
        have hcont : buildNodeGo schema record rest (coli + 1)
            { node with attributes :=
                setLazyField node.attributes (propKey id) (getField record header) } =
            .ok node2 := by
          simpa [buildNodeGo, hsc] using h
        obtain ⟨hv, hmono, hcols⟩ := ih (coli + 1) _ node2 hcont
        refine ⟨by rw [hv], ?_, ?_⟩
        · intro k hk
          apply hmono
          simp only [setLazyField, Option.getD_some]
          exact mem_keys_setField_of_mem _ _ _ _ hk
        · intro p t id2 ti2 ty2 hp hcol
          cases p with
          | zero =>
            rw [Nat.add_zero] at hcol
            rw [hsc] at hcol
            have hide : id2 = id := by
              injection hcol with hcol2
              injection hcol2 with _ b _ _
              exact b.symm
            subst hide
            apply hmono
            simp only [setLazyField, Option.getD_some]
            exact mem_keys_setField_self _ _ _
          | succ q =>
            have hidx : coli + (q + 1) = (coli + 1) + q := by omega
            rw [hidx] at hcol
            exact hcols q t id2 ti2 ty2 (by simp at hp; omega) hcol

/-- Edge analogue of buildNodeGo_ok_shape. -/
theorem buildEdgeGo_ok_shape (schema : List SchemaEl) (record : Record)
    (hall : ∀ (i : Nat) t id ti ty, schema[i]? = some (.struct t id ti ty) →
        t = some "attributes") :
    ∀ (hs : List String) (coli : Nat) (edge edge2 : EdgeEntry),
      buildEdgeGo schema record hs coli edge = .ok edge2 →
      edge2.viz = edge.viz ∧
      (∀ k, k ∈ (edge.attributes.getD []).map Prod.fst →
          k ∈ (edge2.attributes.getD []).map Prod.fst) ∧
      (∀ (p : Nat) t id ti ty, p < hs.length →
          schema[coli + p]? = some (.struct t id ti ty) →
          propKey id ∈ (edge2.attributes.getD []).map Prod.fst) := by
  intro hs
  induction hs with
  | nil =>
    intro coli edge edge2 h
    simp [buildEdgeGo] at h
    subst h
    exact ⟨rfl, fun k hk => hk, fun p t id ti ty hp => by simp at hp⟩
  | cons header rest ih =>
    intro coli edge edge2 h
    cases hsc : schema[coli]? with
    | none => simp [buildEdgeGo, hsc] at h
    | some el =>
      cases el with
      | marker tag =>
        have hcont : buildEdgeGo schema record rest (coli + 1)
            (if tag = "id" then { edge with id := getField record header }
             else if tag = "label" then { edge with label := getField record header }
             else if tag = "type" then { edge with etype := some (getField record header) }
             else if tag = "source" then { edge with source := getField record header }
             else if tag = "target" then { edge with target := getField record header }
             else if tag = "weight" then { edge with weight := some (getField record header) }
             else edge) = .ok edge2 := by
          simpa [buildEdgeGo, hsc] using h
        obtain ⟨hv, hmono, hcols⟩ := ih (coli + 1) _ edge2 hcont
        have hviz3 : (if tag = "id" then { edge with id := getField record header }
             else if tag = "label" then { edge with label := getField record header }
             else if tag = "type" then { edge with etype := some (getField record header) }
             else if tag = "source" then { edge with source := getField record header }
             else if tag = "target" then { edge with target := getField record header }
             else if tag = "weight" then { edge with weight := some (getField record header) }
             else edge).viz = edge.viz := by split_ifs <;> rfl
        have hattr3 : (if tag = "id" then { edge with id := getField record header }
             else if tag = "label" then { edge with label := getField record header }
             else if tag = "type" then { edge with etype := some (getField record header) }
             else if tag = "source" then { edge with source := getField record header }
             else if tag = "target" then { edge with target := getField record header }
             else if tag = "weight" then { edge with weight := some (getField record header) }
             else edge).attributes = edge.attributes := by split_ifs <;> rfl
        refine ⟨by rw [hv, hviz3], ?_, ?_⟩
        · intro k hk
          apply hmono
          rw [hattr3]
          exact hk
        · intro p t id ti ty hp hcol
          cases p with
          | zero =>
            rw [Nat.add_zero] at hcol
            rw [hsc] at hcol
            exact absurd hcol (by simp)
          | succ q =>
            have hidx : coli + (q + 1) = (coli + 1) + q := by omega
            rw [hidx] at hcol
            exact hcols q t id ti ty (by simp at hp; omega) hcol
      | struct target id ti ty =>
        have htg : target = some "attributes" := hall coli target id ti ty hsc
        subst htg
        have hcont : buildEdgeGo schema record rest (coli + 1)
            { edge with attributes :=
                setLazyField edge.attributes (propKey id) (getField record header) } =
            .ok edge2 := by
          simpa [buildEdgeGo, hsc] using h
        obtain ⟨hv, hmono, hcols⟩ := ih (coli + 1) _ edge2 hcont
        refine ⟨by rw [hv], ?_, ?_⟩
        · intro k hk
          apply hmono
          simp only [setLazyField, Option.getD_some]
          exact mem_keys_setField_of_mem _ _ _ _ hk
        · intro p t id2 ti2 ty2 hp hcol
          cases p with
          | zero =>
            rw [Nat.add_zero] at hcol
            rw [hsc] at hcol
            have hide : id2 = id := by
              injection hcol with hcol2
              injection hcol2 with _ b _ _
              exact b.symm
            subst hide
            apply hmono
            simp only [setLazyField, Option.getD_some]
            exact mem_keys_setField_self _ _ _
          | succ q =>
            have hidx : coli + (q + 1) = (coli + 1) + q := by omega
            rw [hidx] at hcol
            exact hcols q t id2 ti2 ty2 (by simp at hp; omega) hcol

/-- Every emitted node is exactly the build result of one of the records. -/
theorem addNodesRecs_ok_mem (schema : List SchemaEl) (headers : List String) :
    ∀ (records : List Record) (nodes : List NodeEntry),
      addNodesRecs schema headers records = .ok nodes →
      ∀ n ∈ nodes, ∃ r ∈ records, buildNodeGo schema r headers 0 {} = .ok n := by
  intro records
  induction records with
  | nil =>
    intro nodes h n hn
    simp [addNodesRecs] at h
    subst h
    simp at hn
  | cons r rest ih =>
    intro nodes h n hn
    cases hb : buildNodeGo schema r headers 0 {} with
    | error e => simp [addNodesRecs, hb] at h
    | ok node =>
      by_cases hl : node.label = JsVal.undef
      · simp [addNodesRecs, hb, hl] at h
      · cases hr : addNodesRecs schema headers rest with
        | error e => simp [addNodesRecs, hb, hl, hr] at h
        | ok nodes2 =>
          simp [addNodesRecs, hb, hl, hr] at h
          subst h
          rcases List.mem_cons.mp hn with hx | hx
          · exact ⟨r, List.mem_cons_self _ _, by rw [hx]; exact hb⟩
          · obtain ⟨r2, hr2, hb2⟩ := ih nodes2 hr n hx
            exact ⟨r2, List.mem_cons_of_mem _ hr2, hb2⟩

/-- Every emitted edge shares viz and attributes with the build result of one
of the records (the id and label defaulting touches neither). -/
theorem addEdgesRecs_ok_mem (schema : List SchemaEl) (headers : List String) :
    ∀ (records : List Record) (idi : Nat) (edges : List EdgeEntry),
      addEdgesRecs schema headers records idi = .ok edges →
      ∀ e ∈ edges, ∃ r ∈ records, ∃ e0, buildEdgeGo schema r headers 0 {} = .ok e0 ∧
        e.viz = e0.viz ∧ e.attributes = e0.attributes := by
  intro records
  induction records with
  | nil =>
    intro idi edges h e he
    simp [addEdgesRecs] at h
    subst h
    simp at he
  | cons r rest ih =>
    intro idi edges h e he
    cases hb : buildEdgeGo schema r headers 0 {} with
    | error e2 => simp [addEdgesRecs, hb] at h
    | ok edge =>
      by_cases hide : edge.id = JsVal.undef
      · cases hr : addEdgesRecs schema headers rest (idi + 1) with
        | error e2 => simp [addEdgesRecs, hb, hide, hr] at h
        | ok edges2 =>
          simp [addEdgesRecs, hb, hide, hr] at h
          subst h
          rcases List.mem_cons.mp he with hx | hx
          · refine ⟨r, List.mem_cons_self _ _, edge, hb, ?_, ?_⟩
            · rw [hx]; split_ifs <;> rfl
            · rw [hx]; split_ifs <;> rfl
          · obtain ⟨r2, hr2, e0, hb2, hv2, ha2⟩ := ih (idi + 1) edges2 hr e hx
            exact ⟨r2, List.mem_cons_of_mem _ hr2, e0, hb2, hv2, ha2⟩
      · cases hr : addEdgesRecs schema headers rest idi with
        | error e2 => simp [addEdgesRecs, hb, hide, hr] at h
        | ok edges2 =>
          simp [addEdgesRecs, hb, hide, hr] at h
          subst h
          rcases List.mem_cons.mp he with hx | hx
          · refine ⟨r, List.mem_cons_self _ _, edge, hb, ?_, ?_⟩
            · rw [hx]; split_ifs <;> rfl
            · rw [hx]; split_ifs <;> rfl
          · obtain ⟨r2, hr2, e0, hb2, hv2, ha2⟩ := ih idi edges2 hr e hx
            exact ⟨r2, List.mem_cons_of_mem _ hr2, e0, hb2, hv2, ha2⟩

/-- Building an edge never fails when the schema covers all headers, and leaves
the id and label untouched when the corresponding markers are absent. -/
theorem buildEdgeGo_ok_exists (schema : List SchemaEl) (record : Record) :
    ∀ (hs : List String) (coli : Nat) (edge : EdgeEntry),
      coli + hs.length ≤ schema.length →
      ∃ e2, buildEdgeGo schema record hs coli edge = .ok e2 ∧
        (SchemaEl.marker "id" ∉ schema → e2.id = edge.id) ∧
        (SchemaEl.marker "label" ∉ schema → e2.label = edge.label) := by
  intro hs
  induction hs with
  | nil =>
    intro coli edge _
    exact ⟨edge, by simp [buildEdgeGo], fun _ => rfl, fun _ => rfl⟩
  | cons header rest ih =>
    intro coli edge hlen
    have hlt : coli < schema.length := by simp at hlen; omega
    have hsc : schema[coli]? = some (schema[coli]) := List.getElem?_eq_getElem hlt
    have hlen2 : (coli + 1) + rest.length ≤ schema.length := by simp at hlen; omega
    cases hel : schema[coli] with
    | marker tag =>
      rw [hel] at hsc
      have hmem : SchemaEl.marker tag ∈ schema := List.getElem?_mem hsc
      obtain ⟨e2, hrun, hid2, hlab2⟩ := ih (coli + 1)
        (if tag = "id" then { edge with id := getField record header }
         else if tag = "label" then { edge with label := getField record header }
         else if tag = "type" then { edge with etype := some (getField record header) }
         else if tag = "source" then { edge with source := getField record header }
         else if tag = "target" then { edge with target := getField record header }
         else if tag = "weight" then { edge with weight := some (getField record header) }
         else edge) hlen2
      refine ⟨e2, by simpa [buildEdgeGo, hsc] using hrun, ?_, ?_⟩
      · intro hid
        have htag : tag ≠ "id" := fun hh => hid (hh ▸ hmem)
        rw [hid2 hid]
        split_ifs with h1 h2 h3 h4 h5 h6
        · exact absurd h1 htag
        all_goals rfl
      · intro hlab
        have htagl : tag ≠ "label" := fun hh => hlab (hh ▸ hmem)
        rw [hlab2 hlab]
        split_ifs with h1 h2 h3 h4 h5
        all_goals rfl
    | struct target id ti ty =>
      rw [hel] at hsc
      by_cases htg : target = some "attributes"
      · obtain ⟨e2, hrun, hid2, hlab2⟩ := ih (coli + 1)
          { edge with attributes :=
              setLazyField edge.attributes (propKey id) (getField record header) } hlen2
        exact ⟨e2, by simpa [buildEdgeGo, hsc, htg] using hrun,
          fun hidm => hid2 hidm, fun hlabm => hlab2 hlabm⟩
      · by_cases hvz : target = some "viz"
        · obtain ⟨e2, hrun, hid2, hlab2⟩ := ih (coli + 1)
            { edge with viz :=
                setLazyField edge.viz (propKey id) (getField record header) } hlen2
          exact ⟨e2, by simpa [buildEdgeGo, hsc, htg, hvz] using hrun,
            fun hidm => hid2 hidm, fun hlabm => hlab2 hlabm⟩
        · obtain ⟨e2, hrun, hid2, hlab2⟩ := ih (coli + 1) edge hlen2
          exact ⟨e2, by simpa [buildEdgeGo, hsc, htg, hvz] using hrun, hid2, hlab2⟩

/-- Injectivity of the synthesized edge identifiers. -/
theorem eStr_inj (a b : Nat) (h : "e" ++ Nat.repr a = "e" ++ Nat.repr b) : a = b := by
  apply natRepr_inj
  have h2 := congrArg String.data h
  rw [String.data_append, String.data_append] at h2
  exact String.ext (List.append_cancel_left h2)

/-- The edge record loop without an id marker: every edge is emitted, gets the
sequential identifier "e" ++ (idi + position), and, when there is no label
marker either, its label is that identifier. -/
theorem addEdgesRecs_noId (schema : List SchemaEl) (headers : List String)
    (hlen : headers.length ≤ schema.length)
    (hid : SchemaEl.marker "id" ∉ schema) :
    ∀ (records : List Record) (idi : Nat),
      ∃ edges, addEdgesRecs schema headers records idi = .ok edges ∧
        edges.length = records.length ∧
        (∀ (k : Nat) e, edges[k]? = some e → e.id = .str ("e" ++ Nat.repr (idi + k))) ∧
        (SchemaEl.marker "label" ∉ schema →
          ∀ (k : Nat) e, edges[k]? = some e → e.label = e.id) := by
  intro records
  induction records with
  | nil =>
    intro idi
    refine ⟨[], by simp [addEdgesRecs], rfl, ?_, ?_⟩
    · intro k e hk; simp at hk
    · intro _ k e hk; simp at hk
  | cons r rest ih =>
    intro idi
    obtain ⟨e0, hb, hid0, hlab0⟩ :=
      buildEdgeGo_ok_exists schema r headers 0 {} (by omega)
    have hide : e0.id = JsVal.undef := hid0 hid
    obtain ⟨edges2, hr, hlen2, hids2, hlabs2⟩ := ih (idi + 1)
    refine ⟨(if e0.label = JsVal.undef then
        { e0 with id := JsVal.str ("e" ++ Nat.repr idi),
                  label := JsVal.str ("e" ++ Nat.repr idi) }
      else { e0 with id := JsVal.str ("e" ++ Nat.repr idi) }) :: edges2, ?_, ?_, ?_, ?_⟩
    · by_cases hl : e0.label = JsVal.undef
      · simp [addEdgesRecs, hb, hide, hr, hl]
      · simp [addEdgesRecs, hb, hide, hr, hl]
    · simp [hlen2]
    · intro k e hk
      cases k with
      | zero =>
        simp at hk
        rw [← hk]
        split_ifs <;> simp
      | succ q =>
        simp at hk
        have := hids2 q e hk
        rw [this]
        have hq : idi + 1 + q = idi + (q + 1) := by omega
        rw [hq]
    · intro hlab k e hk
      have hlabe : e0.label = JsVal.undef := hlab0 hlab
      cases k with
      | zero =>
        simp at hk
        rw [← hk]
        simp [hlabe]
      | succ q =>
        simp at hk
        exact hlabs2 hlab q e hk

/-! The claims. -/

/-- Claim C1. The claim says that a viz element with id "shape" makes coercion
fail with a ValueError when a cell is outside the shape vocabulary. The code
does not: the guard spec.target = "attributes" at index.js:944 is an
assignment, so every structured element takes the attributes branch and the
shape assertions at index.js:952-968 are unreachable. At the failing input
(edge cell "hexagon", also a node cell "hexagon"), validation and coercion
both succeed and the offending cell survives untouched. -/
theorem claim1_shape_vocabulary_not_enforced :
    ("hexagon" ∉ edgeShapes ∧ "hexagon" ∉ nodeShapes) ∧
    checkSchema [[("from", JsVal.str "n1"), ("to", JsVal.str "n2"),
        ("shp", JsVal.str "hexagon")]]
      [SchemaEl.marker "source", SchemaEl.marker "target",
        SchemaEl.struct (some "viz") (some "shape") none none] false =
      .ok [SchemaEl.marker "source", SchemaEl.marker "target",
        SchemaEl.struct (some "viz") (some "shape") none none] ∧
    parseValues [[("from", JsVal.str "n1"), ("to", JsVal.str "n2"),
        ("shp", JsVal.str "hexagon")]]
      [SchemaEl.marker "source", SchemaEl.marker "target",
        SchemaEl.struct (some "viz") (some "shape") none none] false =
      .ok ([[("from", JsVal.str "n1"), ("to", JsVal.str "n2"),
        ("shp", JsVal.str "hexagon")]],
        [SchemaEl.marker "source", SchemaEl.marker "target",
          SchemaEl.struct (some "attributes") (some "shape") none none]) ∧
    parseValues [[("n", JsVal.str "a"), ("shp", JsVal.str "hexagon")]]
      [SchemaEl.marker "id", SchemaEl.struct (some "viz") (some "shape") none none] true =
      .ok ([[("n", JsVal.str "a"), ("shp", JsVal.str "hexagon")]],
        [SchemaEl.marker "id",
          SchemaEl.struct (some "attributes") (some "shape") none none]) :=
  ⟨by decide, by decide, by decide, by decide⟩

/-- Claim C2. After parseValues succeeds on a schema covered by the headers,
every structured element of the resulting schema, including every viz
declaration, carries target "attributes"; consequently addNodes and addEdges
store the cell values of those columns in each entity's attributes map and the
viz branch is never taken (viz stays absent on every assembled entity). -/
theorem claim2_viz_rerouted_to_attributes
    (records recs2 : List Record) (schema schema2 : List SchemaEl) (isNode : Bool)
    (hpv : parseValues records schema isNode = .ok (recs2, schema2))
    (hlen : schema.length ≤ (headersOf records).length) :
    (∀ (i : Nat) t id ti ty, schema2[i]? = some (.struct t id ti ty) →
        t = some "attributes") ∧
    (∀ (nrecords : List Record) (nodes : List NodeEntry),
        addNodes nrecords schema2 = .ok nodes →
        ∀ n ∈ nodes, n.viz = none ∧
          (∀ (i : Nat) t id ti ty, i < (headersOf nrecords).length →
              schema2[i]? = some (.struct t id ti ty) →
              propKey id ∈ (n.attributes.getD []).map Prod.fst)) ∧
    (∀ (erecords : List Record) (edges : List EdgeEntry),
        addEdges erecords schema2 = .ok edges →
        ∀ e ∈ edges, e.viz = none ∧
          (∀ (i : Nat) t id ti ty, i < (headersOf erecords).length →
              schema2[i]? = some (.struct t id ti ty) →
              propKey id ∈ (e.attributes.getD []).map Prod.fst)) := by
  have hall : ∀ (i : Nat) t id ti ty, schema2[i]? = some (.struct t id ti ty) →
      t = some "attributes" := by
    cases records with
    | nil => simp [parseValues] at hpv
    | cons r0 rest =>
      have hpvgo : parseValuesGo isNode (r0.map Prod.fst) 0 (r0 :: rest) schema =
          .ok (recs2, schema2) := by simpa [parseValues] using hpv
      obtain ⟨hlen2, _, hmks, hsts⟩ :=
        parseValuesGo_ok_schema isNode (r0.map Prod.fst) 0 (r0 :: rest) schema
          (recs2, schema2) hpvgo
      intro i t id ti ty hsc2
      have hilt : i < schema.length := by
        have := (List.getElem?_eq_some.mp hsc2).1
        simp only at hlen2
        omega
      have hsc1 : schema[i]? = some (schema[i]) := List.getElem?_eq_getElem hilt
      cases hel : schema[i] with
      | marker tag =>
        rw [hel] at hsc1
        have := hmks i tag hsc1
        rw [hsc2] at this
        exact absurd (Option.some.inj this) (by simp)
      | struct t0 id0 ti0 ty0 =>
        rw [hel] at hsc1
        have hiw : i < (r0.map Prod.fst).length := by
          have : (headersOf (r0 :: rest)).length = (r0.map Prod.fst).length := by
            simp [headersOf]
          omega
        have := hsts i t0 id0 ti0 ty0 hiw (by simpa using hsc1)
        have h3 : some (SchemaEl.struct t id ti ty) =
            some (SchemaEl.struct (some "attributes") id0 ti0 ty0) := by
          rw [← hsc2]
          simpa using this
        simp only [Option.some.injEq, SchemaEl.struct.injEq] at h3
        exact h3.1
  refine ⟨hall, ?_, ?_⟩
  · intro nrecords nodes hadd n hn
    cases nrecords with
    | nil => simp [addNodes] at hadd
    | cons r0 rest =>
      have hrecs : addNodesRecs schema2 (r0.map Prod.fst) (r0 :: rest) = .ok nodes := by
        simpa [addNodes] using hadd
      obtain ⟨r, _, hb⟩ := addNodesRecs_ok_mem schema2 (r0.map Prod.fst) (r0 :: rest)
        nodes hrecs n hn
      obtain ⟨hv, _, hcols⟩ := buildNodeGo_ok_shape schema2 r hall (r0.map Prod.fst) 0 {} n hb
      refine ⟨by rw [hv], ?_⟩
      intro i t id ti ty hiw hsc2
      have hiw2 : i < (r0.map Prod.fst).length := by simpa [headersOf] using hiw
      exact hcols i t id ti ty hiw2 (by simpa using hsc2)
  · intro erecords edges hadd e he
    cases erecords with
    | nil => simp [addEdges] at hadd
    | cons r0 rest =>
      have hrecs : addEdgesRecs schema2 (r0.map Prod.fst) (r0 :: rest) 1 = .ok edges := by
        simpa [addEdges] using hadd
      obtain ⟨r, _, e0, hb, hv0, ha0⟩ := addEdgesRecs_ok_mem schema2 (r0.map Prod.fst)
        (r0 :: rest) 1 edges hrecs e he
      obtain ⟨hv, _, hcols⟩ := buildEdgeGo_ok_shape schema2 r hall (r0.map Prod.fst) 0 {} e0 hb
      refine ⟨by rw [hv0, hv], ?_⟩
      intro i t id ti ty hiw hsc2
      have hiw2 : i < (r0.map Prod.fst).length := by simpa [headersOf] using hiw
      rw [ha0]
      exact hcols i t id ti ty hiw2 (by simpa using hsc2)

/-- Concrete instance of claim C2: a node viz shape declaration is rewritten to
an attributes declaration by parseValues. -/
theorem claim2_viz_rerouted_to_attributes_witness :
    (parseValues [[("shp", JsVal.str "disc")]]
      [SchemaEl.struct (some "viz") (some "shape") none none] true =
      .ok ([[("shp", JsVal.str "disc")]],
        [SchemaEl.struct (some "attributes") (some "shape") none none]) ∧
    ([SchemaEl.struct (some "viz") (some "shape") none none] : List SchemaEl).length ≤
      (headersOf [[("shp", JsVal.str "disc")]]).length) ∧
    (∀ (i : Nat) t id ti ty,
        ([SchemaEl.struct (some "attributes") (some "shape") none none] :
          List SchemaEl)[i]? = some (.struct t id ti ty) → t = some "attributes") :=
  ⟨⟨by decide, by decide⟩,
    (claim2_viz_rerouted_to_attributes [[("shp", JsVal.str "disc")]]
      [[("shp", JsVal.str "disc")]]
      [SchemaEl.struct (some "viz") (some "shape") none none]
      [SchemaEl.struct (some "attributes") (some "shape") none none] true
      (by decide) (by decide)).1⟩

/-- Claim C3. The claim (and the jsdoc of the source) says that without a label
marker the node label defaults to the node id. The default at index.js:1068 is
node.label = id, and id is not declared anywhere in scope, so under
"use strict" addNodes throws a ReferenceError instead; the schema itself is
accepted by validation, so the whole pipeline fails on every labelless node
table. -/
theorem claim3_label_default_references_undeclared_id :
    checkSchema [[("n", JsVal.str "n1")]] [SchemaEl.marker "id"] true =
      .ok [SchemaEl.marker "id"] ∧
    addNodes [[("n", JsVal.str "n1")]] [SchemaEl.marker "id"] =
      .error (.referenceError "id") :=
  ⟨by decide, by decide⟩

/-- Claim C4. Assembling edge records under a schema without an id marker
succeeds, the k-th edge (0-based k) receives the identifier "e" ++ (k + 1),
these identifiers are pairwise distinct, and without a label marker each edge
label equals its own synthesized id. -/
theorem claim4_edge_id_synthesis
    (records : List Record) (schema : List SchemaEl)
    (hne : records ≠ [])
    (hlen : (headersOf records).length ≤ schema.length)
    (hid : SchemaEl.marker "id" ∉ schema) :
    ∃ edges, addEdges records schema = .ok edges ∧
      edges.length = records.length ∧
      (∀ (k : Nat) e, edges[k]? = some e → e.id = .str ("e" ++ Nat.repr (k + 1))) ∧
      (∀ (j k : Nat) ej ek, edges[j]? = some ej → edges[k]? = some ek → j ≠ k →
          ej.id ≠ ek.id) ∧
      (SchemaEl.marker "label" ∉ schema →
          ∀ (k : Nat) e, edges[k]? = some e → e.label = e.id) := by
  obtain ⟨r0, rest, hrec⟩ := List.exists_cons_of_ne_nil hne
  subst hrec
  have hlen2 : (r0.map Prod.fst).length ≤ schema.length := by
    simpa [headersOf] using hlen
  obtain ⟨edges, hrun, hel, hids, hlabs⟩ :=
    addEdgesRecs_noId schema (r0.map Prod.fst) hlen2 hid (r0 :: rest) 1
  refine ⟨edges, by simp [addEdges, hrun], hel, ?_, ?_, hlabs⟩
  · intro k e hk
    rw [hids k e hk]
    have : 1 + k = k + 1 := by omega
    rw [this]
  · intro j k ej ek hj hk hjk heq
    have h1 := hids j ej hj
    have h2 := hids k ek hk
    rw [h1, h2] at heq
    injection heq with heq2
    exact hjk (by have := eStr_inj (1 + j) (1 + k) heq2; omega)

/-- Concrete instance of claim C4: three rows yield e1, e2, e3. -/
theorem claim4_edge_id_synthesis_witness :
    (([[("s", JsVal.str "a"), ("t", JsVal.str "b")],
       [("s", JsVal.str "b"), ("t", JsVal.str "c")],
       [("s", JsVal.str "c"), ("t", JsVal.str "a")]] : List Record) ≠ [] ∧
     (headersOf [[("s", JsVal.str "a"), ("t", JsVal.str "b")],
       [("s", JsVal.str "b"), ("t", JsVal.str "c")],
       [("s", JsVal.str "c"), ("t", JsVal.str "a")]]).length ≤
       ([SchemaEl.marker "source", SchemaEl.marker "target"] : List SchemaEl).length ∧
     SchemaEl.marker "id" ∉
       ([SchemaEl.marker "source", SchemaEl.marker "target"] : List SchemaEl)) ∧
    (∃ edges, addEdges [[("s", JsVal.str "a"), ("t", JsVal.str "b")],
        [("s", JsVal.str "b"), ("t", JsVal.str "c")],
        [("s", JsVal.str "c"), ("t", JsVal.str "a")]]
        [SchemaEl.marker "source", SchemaEl.marker "target"] = .ok edges ∧
      edges.length = 3 ∧
      (∀ (k : Nat) e, edges[k]? = some e → e.id = .str ("e" ++ Nat.repr (k + 1))) ∧
      (∀ (j k : Nat) ej ek, edges[j]? = some ej → edges[k]? = some ek → j ≠ k →
          ej.id ≠ ek.id) ∧
      (SchemaEl.marker "label" ∉
          ([SchemaEl.marker "source", SchemaEl.marker "target"] : List SchemaEl) →
        ∀ (k : Nat) e, edges[k]? = some e → e.label = e.id)) :=
  ⟨⟨by decide, by decide, by decide⟩,
    claim4_edge_id_synthesis _ _ (by decide) (by decide) (by decide)⟩

/-- Claim C5. The documented contract (index.js:763-766 and the spec) says that
with saveAs set and all stages succeeding, convert resolves to the saved path.
The code resolves to the gexf object instead: saveGexf ends with
resolve(gexfObj) (index.js:1131), never with the path. Evaluated at a concrete
fully-succeeding configuration with saveAs = "result.gexf". -/
theorem claim5_convert_resolves_to_document_not_path :
    convert { nodeRecords := [[("n", JsVal.str "n1"), ("l", JsVal.str "N1")]],
              nodeSchema := [SchemaEl.marker "id", SchemaEl.marker "label"],
              edgeRecords := [[("s", JsVal.str "n1"), ("t", JsVal.str "n1")]],
              edgeSchema := [SchemaEl.marker "source", SchemaEl.marker "target"],
              saveAs := some "result.gexf" } true =
      .ok (.doc
        { nodeModel := [], edgeModel := [],
          nodes := [{ id := JsVal.str "n1", label := JsVal.str "N1" }],
          edges := [{ id := JsVal.str "e1", label := JsVal.str "e1",
                      source := JsVal.str "n1", target := JsVal.str "n1" }] }) ∧
    convert { nodeRecords := [[("n", JsVal.str "n1"), ("l", JsVal.str "N1")]],
              nodeSchema := [SchemaEl.marker "id", SchemaEl.marker "label"],
              edgeRecords := [[("s", JsVal.str "n1"), ("t", JsVal.str "n1")]],
              edgeSchema := [SchemaEl.marker "source", SchemaEl.marker "target"],
              saveAs := some "result.gexf" } true ≠
      .ok (.savedPath "result.gexf") :=
  ⟨by decide, by decide⟩

/-- Claim C6. The claim says an edge type column succeeds when every cell is in
the type vocabulary. The code always throws instead: assertColumn hands the
whole record to the assertion (index.js:988), an object never strictly equals
a string, and the throwing branch then references the undeclared ctxt, so
parseValues raises a ReferenceError even on an all-"directed" column. -/
theorem claim6_type_column_throws_on_valid_values :
    "directed" ∈ edgeTypes ∧
    checkSchema [[("t", JsVal.str "directed"), ("s", JsVal.str "n1"),
        ("g", JsVal.str "n2")]]
      [SchemaEl.marker "type", SchemaEl.marker "source", SchemaEl.marker "target"] false =
      .ok [SchemaEl.marker "type", SchemaEl.marker "source", SchemaEl.marker "target"] ∧
    parseValues [[("t", JsVal.str "directed"), ("s", JsVal.str "n1"),
        ("g", JsVal.str "n2")]]
      [SchemaEl.marker "type", SchemaEl.marker "source", SchemaEl.marker "target"] false =
      .error (.referenceError "ctxt") :=
  ⟨by decide, by decide, by decide⟩

/-- Claim C7. For a schema column declared with type boolean, a successful
coercion run replaces the cell of every record, none skipped: the cell becomes
true exactly when the original string equals "true" case-insensitively
(formalized via uppercase folding, as the code computes it) or equals "1"
exactly, and false otherwise. -/
theorem claim7_boolean_coercion
    (records recs2 : List Record) (schema schema2 : List SchemaEl) (isNode : Bool)
    (col : Nat) (header : String) (tgt id ti : Option String)
    (hpv : parseValues records schema isNode = .ok (recs2, schema2))
    (hnd : (headersOf records).Nodup)
    (hcol : (headersOf records)[col]? = some header)
    (hsch : schema[col]? = some (.struct tgt id ti (some "boolean"))) :
    recs2.length = records.length ∧
    ∀ (j : Nat) r, records[j]? = some r → ∃ s, getField r header = .str s ∧
      ∃ r2, recs2[j]? = some r2 ∧
        getField r2 header = .boolV (jsToUpperCase s == "TRUE" || s == "1") := by
  cases records with
  | nil => simp [parseValues] at hpv
  | cons r0 rest =>
    have hpvgo : parseValuesGo isNode (r0.map Prod.fst) 0 (r0 :: rest) schema =
        .ok (recs2, schema2) := by simpa [parseValues] using hpv
    exact parseValuesGo_ok_bool isNode (r0.map Prod.fst) 0 (r0 :: rest) schema
      (recs2, schema2) col header tgt id ti hpvgo (by simpa [headersOf] using hnd)
      (by simpa [headersOf] using hcol) (by simpa using hsch)

/-- Concrete instance of claim C7: cells "TRUE", "1" and "no" coerce to true,
true and false. -/
theorem claim7_boolean_coercion_witness :
    (parseValues [[("a", JsVal.str "x"), ("b", JsVal.str "TRUE")],
        [("a", JsVal.str "y"), ("b", JsVal.str "1")],
        [("a", JsVal.str "z"), ("b", JsVal.str "no")]]
      [SchemaEl.marker "id",
        SchemaEl.struct (some "attributes") (some "flag") none (some "boolean")] true =
      .ok ([[("a", JsVal.str "x"), ("b", JsVal.boolV true)],
        [("a", JsVal.str "y"), ("b", JsVal.boolV true)],
        [("a", JsVal.str "z"), ("b", JsVal.boolV false)]],
        [SchemaEl.marker "id",
          SchemaEl.struct (some "attributes") (some "flag") none (some "boolean")]) ∧
      (headersOf [[("a", JsVal.str "x"), ("b", JsVal.str "TRUE")],
        [("a", JsVal.str "y"), ("b", JsVal.str "1")],
        [("a", JsVal.str "z"), ("b", JsVal.str "no")]]).Nodup) ∧
    ([[("a", JsVal.str "x"), ("b", JsVal.boolV true)],
      [("a", JsVal.str "y"), ("b", JsVal.boolV true)],
      [("a", JsVal.str "z"), ("b", JsVal.boolV false)]] : List Record).length =
      ([[("a", JsVal.str "x"), ("b", JsVal.str "TRUE")],
        [("a", JsVal.str "y"), ("b", JsVal.str "1")],
        [("a", JsVal.str "z"), ("b", JsVal.str "no")]] : List Record).length :=
  ⟨⟨by decide, by decide⟩,
    (claim7_boolean_coercion
      [[("a", JsVal.str "x"), ("b", JsVal.str "TRUE")],
        [("a", JsVal.str "y"), ("b", JsVal.str "1")],
        [("a", JsVal.str "z"), ("b", JsVal.str "no")]]
      [[("a", JsVal.str "x"), ("b", JsVal.boolV true)],
        [("a", JsVal.str "y"), ("b", JsVal.boolV true)],
        [("a", JsVal.str "z"), ("b", JsVal.boolV false)]]
      [SchemaEl.marker "id",
        SchemaEl.struct (some "attributes") (some "flag") none (some "boolean")]
      [SchemaEl.marker "id",
        SchemaEl.struct (some "attributes") (some "flag") none (some "boolean")]
      true 1 "b" (some "attributes") (some "flag") none
      (by decide) (by decide) (by decide) (by decide)).1⟩

/-- Claim C8. For a non-empty record set whose header count differs from the
schema length, validation fails with a schema Error whose message states both
counts, regardless of table kind. -/
theorem claim8_length_mismatch (r0 : Record) (rest : List Record)
    (schema : List SchemaEl) (isNode : Bool)
    (hne : (r0.map Prod.fst).length ≠ schema.length) :
    ∃ m, checkSchema (r0 :: rest) schema isNode = .error (.jsError m) ∧
      strContains m (Nat.repr (r0.map Prod.fst).length) ∧
      strContains m (Nat.repr schema.length) := by
  refine ⟨lengthMismatchMsg (r0.map Prod.fst).length schema.length (ctxtStr isNode),
    ?_, ?_, ?_⟩
  · have hne2 : ¬ r0.length = schema.length := by simpa using hne
    simp [checkSchema, hne2, lengthMismatchMsg]
  · exact ⟨"There are ",
      " columns and " ++ Nat.repr schema.length ++ " schema elements " ++
        ctxtStr isNode ++ ". These numbers should be equal.",
      by simp [lengthMismatchMsg, String.append_assoc]⟩
  · exact ⟨"There are " ++ Nat.repr (r0.map Prod.fst).length ++ " columns and ",
      " schema elements " ++ ctxtStr isNode ++ ". These numbers should be equal.",
      by simp [lengthMismatchMsg, String.append_assoc]⟩

/-- Concrete instance of claim C8: five columns against four schema elements. -/
theorem claim8_length_mismatch_witness :
    (([("a", JsVal.str "1"), ("b", JsVal.str "2"), ("c", JsVal.str "3"),
        ("d", JsVal.str "4"), ("e", JsVal.str "5")] : Record).map Prod.fst).length ≠
      ([SchemaEl.marker "id", SchemaEl.marker "label",
        SchemaEl.struct (some "attributes") none none (some "string"),
        SchemaEl.marker "label"] : List SchemaEl).length ∧
    ∃ m, checkSchema [[("a", JsVal.str "1"), ("b", JsVal.str "2"), ("c", JsVal.str "3"),
        ("d", JsVal.str "4"), ("e", JsVal.str "5")]]
      [SchemaEl.marker "id", SchemaEl.marker "label",
        SchemaEl.struct (some "attributes") none none (some "string"),
        SchemaEl.marker "label"] true = .error (.jsError m) ∧
      strContains m (Nat.repr 5) ∧ strContains m (Nat.repr 4) :=
  ⟨by decide, claim8_length_mismatch _ [] _ true (by decide)⟩

/-- Claim C9. A node schema with no id marker always fails validation on a
non-empty record set, and an edge schema lacking the source marker or the
target marker always fails validation; each failure is a thrown Error. -/
theorem claim9_missing_required_markers
    (records : List Record) (hne : records ≠ []) :
    (∀ schema : List SchemaEl, SchemaEl.marker "id" ∉ schema →
      ∃ m, checkSchema records schema true = .error (.jsError m)) ∧
    (∀ schema : List SchemaEl,
      SchemaEl.marker "source" ∉ schema ∨ SchemaEl.marker "target" ∉ schema →
      ∃ m, checkSchema records schema false = .error (.jsError m)) := by
  obtain ⟨r0, rest, hrec⟩ := List.exists_cons_of_ne_nil hne
  subst hrec
  have hmissing : ∀ (schema : List SchemaEl) (s : String), SchemaEl.marker s ∉ schema →
      schemaIndexOf schema s < 0 := by
    intro schema s hs
    rw [schemaIndexOf, schemaIndexOfGo_neg]
    intro el hel
    cases el with
    | marker t =>
      have : t ≠ s := fun hh => hs (hh ▸ hel)
      simp [schemaElEqStr, this]
    | struct t id ti ty => simp [schemaElEqStr]
  constructor
  · intro schema hid
    by_cases hlen : r0.length = schema.length
    · have hidx := hmissing schema "id" hid
      exact ⟨"There is no \x27id\x27 " ++ ctxtStr true ++ ".",
        by simp [checkSchema, hlen, hidx]⟩
    · exact ⟨lengthMismatchMsg (r0.map Prod.fst).length schema.length (ctxtStr true),
        by simp [checkSchema, hlen, lengthMismatchMsg]⟩
  · intro schema hst
    by_cases hlen : r0.length = schema.length
    · by_cases hsrc : schemaIndexOf schema "source" < 0
      · exact ⟨"There is no \x27source\x27 " ++ ctxtStr false ++ ".",
          by simp [checkSchema, hlen, hsrc]⟩
      · have htgtm : SchemaEl.marker "target" ∉ schema := by
          rcases hst with hx | hx
          · exact absurd (hmissing schema "source" hx) hsrc
          · exact hx
        have htgt := hmissing schema "target" htgtm
        exact ⟨"There is no \x27target\x27 " ++ ctxtStr false ++ ".",
          by simp [checkSchema, hlen, hsrc, htgt]⟩
    · exact ⟨lengthMismatchMsg (r0.map Prod.fst).length schema.length (ctxtStr false),
        by simp [checkSchema, hlen, lengthMismatchMsg]⟩

/-- Concrete instance of claim C9: a node schema without id, and an edge schema
without target, both rejected. -/
theorem claim9_missing_required_markers_witness :
    (([[("a", JsVal.str "1")]] : List Record) ≠ [] ∧
      SchemaEl.marker "id" ∉ ([SchemaEl.marker "label"] : List SchemaEl) ∧
      (SchemaEl.marker "source" ∉ ([SchemaEl.marker "source"] : List SchemaEl) ∨
        SchemaEl.marker "target" ∉ ([SchemaEl.marker "source"] : List SchemaEl))) ∧
    (∃ m, checkSchema [[("a", JsVal.str "1")]] [SchemaEl.marker "label"] true =
      .error (.jsError m)) ∧
    (∃ m, checkSchema [[("a", JsVal.str "1")]] [SchemaEl.marker "source"] false =
      .error (.jsError m)) :=
  ⟨⟨by decide, by decide, by decide⟩,
    (claim9_missing_required_markers [[("a", JsVal.str "1")]] (by decide)).1
      [SchemaEl.marker "label"] (by decide),
    (claim9_missing_required_markers [[("a", JsVal.str "1")]] (by decide)).2
      [SchemaEl.marker "source"] (by decide)⟩

/-- Claim C10. When validation succeeds, every attribute element with a missing
id gets the positionally corresponding column header as id and every missing
title gets that id, deterministically; all other elements are unchanged; and
re-running validation on the already-defaulted schema succeeds and returns it
unchanged. -/
theorem claim10_defaulting_and_idempotence
    (records : List Record) (schema schema2 : List SchemaEl) (isNode : Bool)
    (hok : checkSchema records schema isNode = .ok schema2) :
    (∀ (i : Nat) id ti ty hdr,
        schema[i]? = some (.struct (some "attributes") id ti ty) →
        (headersOf records)[i]? = some hdr →
        schema2[i]? = some (.struct (some "attributes") (some (id.getD hdr))
          (some (ti.getD (id.getD hdr))) ty)) ∧
    (∀ (i : Nat) el, schema[i]? = some el →
        (∀ id ti ty, el ≠ .struct (some "attributes") id ti ty) →
        schema2[i]? = some el) ∧
    checkSchema records schema2 isNode = .ok schema2 := by
  obtain ⟨r0, rest, hrec, hlen, _, _, _, hcc⟩ :=
    checkSchema_ok_parts records schema schema2 isNode hok
  subst hrec
  obtain ⟨hlen2, hfr2, hcl3⟩ :=
    checkColumnsGo_ok_spec isNode (r0.map Prod.fst) 0 schema schema2 hcc
  refine ⟨?_, ?_, checkSchema_idem _ schema schema2 isNode hok⟩
  · intro i id ti ty hdr hsc hhd
    have hhd2 : (r0.map Prod.fst)[i]? = some hdr := by simpa [headersOf] using hhd
    have h2 := hcl3 i hdr hhd2 _ (show schema[0 + i]? = _ by simpa using hsc)
    simpa [normalizeEl] using h2
  · intro i el hsc hnot
    have hilt : i < schema.length := (List.getElem?_eq_some.mp hsc).1
    have hilt2 : i < (r0.map Prod.fst).length := by rw [hlen]; exact hilt
    have hhd : (r0.map Prod.fst)[i]? = some ((r0.map Prod.fst)[i]) :=
      List.getElem?_eq_getElem hilt2
    have h2 := hcl3 i _ hhd el (by simpa using hsc)
    have hnorm : normalizeEl el ((r0.map Prod.fst)[i]) = el := by
      cases el with
      | marker t => simp [normalizeEl]
      | struct t id ti ty =>
        by_cases htg : t = some "attributes"
        · subst htg
          exact absurd rfl (hnot id ti ty)
        · simp [normalizeEl, htg]
    rw [hnorm] at h2
    simpa using h2

/-- Concrete instance of claim C10: the attribute element of a two-column node
schema gets id and title defaulted from the second header, and re-validation
is a fixed point. -/
theorem claim10_defaulting_and_idempotence_witness :
    checkSchema [[("h1", JsVal.str "a"), ("h2", JsVal.str "b")]]
      [SchemaEl.marker "id", SchemaEl.struct (some "attributes") none none (some "string")]
      true =
      .ok [SchemaEl.marker "id",
        SchemaEl.struct (some "attributes") (some "h2") (some "h2") (some "string")] ∧
    checkSchema [[("h1", JsVal.str "a"), ("h2", JsVal.str "b")]]
      [SchemaEl.marker "id",
        SchemaEl.struct (some "attributes") (some "h2") (some "h2") (some "string")]
      true =
      .ok [SchemaEl.marker "id",
        SchemaEl.struct (some "attributes") (some "h2") (some "h2") (some "string")] :=
  ⟨by decide,
    (claim10_defaulting_and_idempotence [[("h1", JsVal.str "a"), ("h2", JsVal.str "b")]]
      [SchemaEl.marker "id", SchemaEl.struct (some "attributes") none none (some "string")]
      [SchemaEl.marker "id",
        SchemaEl.struct (some "attributes") (some "h2") (some "h2") (some "string")]
      true (by decide)).2.2⟩

end Csv2Gexf
